import Mathlib

/-!
# One-dimensional cellular automaton: embedding and verified properties

A shallow embedding of the three programs of the repository

* `Computer/main.c`      (text renderer, `ROW_LENGTH = 80`, rule number `CURRENT_RULE = 30`),
* `Arduino/src/main.cpp` (LED renderer, `ROW_LENGTH = 40`, explicit table `ruleset`),
* `src/main.cpp`         (serial dump, row length `8`, explicit table `ruleset`),

followed by theorems about them.

Conventions of the embedding.

* An `int` value is a Lean `Int`; the bitwise operators work on the 32-bit two's-complement
  representation (`toUnsigned`/`toSigned`), shifts whose behaviour C leaves undefined are
  errors (`none`).
* The global `int` arrays of a program form a `Mem` (a list of arrays, by array number); a
  pointer is an array number and an element offset, a null pointer is `none`.  Every array
  access is bounds-checked and yields `none` outside the array.
* The macros `ROW_LENGTH` and `CURRENT_RULE` (in `src/main.cpp`: the literal `8`) are parameters
  of the embedded functions, so that statements can range over every row length; the constants
  of the source are `ROW_LENGTH` and `CURRENT_RULE` in the namespace of each program.
* Loop counters and the index expressions `((i - 1) + ROW_LENGTH) % ROW_LENGTH` and
  `(i + 1) % ROW_LENGTH` are computed in `Int` with C's truncating remainder `Int.tmod`.  Their
  values never exceed `2 * ROW_LENGTH`, which is representable because an array of `ROW_LENGTH`
  (in `Computer/main.c`: `ROW_LENGTH * 2`) `int`s is declared.
-/

namespace CA1D

/-! ## Machine integers -/

/-- Largest value of `int`. -/
def INT_MAX : Int := 2147483647

/-- Smallest value of `int`. -/
def INT_MIN : Int := -2147483648

/-- The 32-bit pattern of an `int`, as a natural number below `2^32`. -/
def toUnsigned (x : Int) : Nat := (x % 4294967296).toNat

/-- The `int` whose 32-bit two's-complement pattern is `u`. -/
def toSigned (u : Nat) : Int :=
  if u < 2147483648 then (u : Int) else (u : Int) - 4294967296

/-- Two's-complement wraparound of a mathematical integer to `int`. -/
def wrap (x : Int) : Int := toSigned (toUnsigned x)

/-- C `a | b` on `int`. -/
def bitOr (a b : Int) : Int := toSigned (toUnsigned a ||| toUnsigned b)

/-- C `a & b` on `int`. -/
def bitAnd (a b : Int) : Int := toSigned (toUnsigned a &&& toUnsigned b)

/-- C `a << k` on `int`: the value `a * 2^k`; undefined (here `none`) when `a` is negative, when
`k` is not in `0..31`, or when the result is not representable. -/
def shl (a k : Int) : Option Int :=
  if 0 ≤ a ∧ 0 ≤ k ∧ k < 32 ∧ a * 2 ^ k.toNat ≤ INT_MAX then some (a * 2 ^ k.toNat) else none

/-- C `a >> k` on `int` (arithmetic shift, rounding towards minus infinity); undefined (here
`none`) when `k` is not in `0..31`. -/
def shr (a k : Int) : Option Int :=
  if 0 ≤ k ∧ k < 32 then some (Int.shiftRight a k.toNat) else none

/-! ## The transition rule -/

/-- The expression `left << 2 | center << 1 | right` (`Computer/main.c:13`), written
`(left << 2) | (center << 1) | right` in `Arduino/src/main.cpp:80` and `src/main.cpp:47`. -/
def neighbourhood (left center right : Int) : Option Int :=
  (shl left 2).bind fun l2 =>
  (shl center 1).bind fun c1 =>
  some (bitOr (bitOr l2 c1) right)

/-- `Computer/main.c:12-14`:
`return (rule >> (left << 2 | center << 1 | right)) & 1;` -/
def stateBasedOnNeighbors (rule left center right : Int) : Option Int :=
  (neighbourhood left center right).bind fun code =>
  (shr rule code).bind fun shifted =>
  some (bitAnd shifted 1)

/-- Read of `a[i]` in an `int` array with a signed index; `none` outside the array. -/
def readArray (a : List Int) (i : Int) : Option Int :=
  if 0 ≤ i then a[i.toNat]? else none

/-- The expression `ruleset[(left << 2) | (center << 1) | right]`
(`Arduino/src/main.cpp:80`, `src/main.cpp:47`). -/
def rulesetLookup (ruleset : List Int) (left center right : Int) : Option Int :=
  (neighbourhood left center right).bind fun code => readArray ruleset code

/-- A cell value is binary when it is `0` or `1`. -/
def isBit (x : Int) : Prop := x = 0 ∨ x = 1

instance (x : Int) : Decidable (isBit x) := by unfold isBit; infer_instance

/-- Every cell of the row is `0` or `1`. -/
def binaryRow (row : List Int) : Prop := ∀ x ∈ row, isBit x

instance (row : List Int) : Decidable (binaryRow row) := by unfold binaryRow; infer_instance

/-! ## Memory, pointers and loops -/

/-- The global `int` arrays of a program, by array number. -/
abbrev Mem := List (List Int)

/-- A non-null `int *`: the array pointed into and the element offset inside it. -/
structure Ptr where
  /-- Array number. -/
  arr : Nat
  /-- Element offset inside the array. -/
  off : Nat
deriving DecidableEq, Repr

/-- Read of `p[i]`. -/
def load (m : Mem) (p : Ptr) (i : Int) : Option Int :=
  (m[p.arr]?).bind fun a => readArray a ((p.off : Int) + i)

/-- Assignment `p[i] = v`. -/
def store (m : Mem) (p : Ptr) (i : Int) (v : Int) : Option Mem :=
  (m[p.arr]?).bind fun a =>
    if 0 ≤ (p.off : Int) + i ∧ ((p.off : Int) + i).toNat < a.length then
      some (m.set p.arr (a.set ((p.off : Int) + i).toNat v))
    else none

/-- The loop `for (int i = start; i < bound; i++) body`, started at `i`; `fuel` bounds the number
of evaluations of the loop condition. -/
def forLoop {σ : Type} (bound : Int) (body : Int → σ → Option σ) : Nat → Int → σ → Option σ
  | 0, _, _ => none
  | fuel + 1, i, s =>
    if i < bound then (body i s).bind (forLoop bound body fuel (i + 1)) else some s

/-- The loop `for (int i = 0; i < n; i++) body`, with the `n + 1` condition tests it needs. -/
def forUpTo {σ : Type} (n : Nat) (body : Int → σ → Option σ) (s : σ) : Option σ :=
  forLoop (n : Int) body (n + 1) 0 s

/-- Body of the next-state loop (`Computer/main.c:32-36`, `Arduino/src/main.cpp:74-80`,
`src/main.cpp:41-47`); `rule` is the expression on the right of the assignment to `next[i]`. -/
def nextStateBody (N : Nat) (rule : Int → Int → Int → Option Int) (current next : Ptr)
    (i : Int) (m : Mem) : Option Mem :=
  (load m current (Int.tmod ((i - 1) + (N : Int)) (N : Int))).bind fun left =>
  (load m current i).bind fun center =>
  (load m current (Int.tmod (i + 1) (N : Int))).bind fun right =>
  (rule left center right).bind fun v =>
  store m next i v

/-- The next-state loop `for (int i = 0; i < ROW_LENGTH; i++) { ... }`
(`Computer/main.c:31-37`, `Arduino/src/main.cpp:72-81`, `src/main.cpp:39-48`). -/
def nextStateLoop (N : Nat) (rule : Int → Int → Int → Option Int) (current next : Ptr)
    (m : Mem) : Option Mem :=
  forUpTo N (nextStateBody N rule current next) m

/-- The `N` cells `p[0] .. p[N-1]`, when they all lie inside the array of `p`. -/
def rowAt (m : Mem) (p : Ptr) (N : Nat) : Option (List Int) :=
  (m[p.arr]?).bind fun a =>
    if p.off + N ≤ a.length then some ((a.drop p.off).take N) else none

/-- The cell ranges `p[0..N-1]` and `q[0..N-1]` share no cell. -/
def disjointBuffers (N : Nat) (p q : Ptr) : Prop :=
  p.arr ≠ q.arr ∨ p.off + N ≤ q.off ∨ q.off + N ≤ p.off

instance (N : Nat) (p q : Ptr) : Decidable (disjointBuffers N p q) := by
  unfold disjointBuffers; infer_instance

/-- Repeated execution of a fallible state transformer, `k` times. -/
def iterate {σ : Type} (f : σ → Option σ) : Nat → σ → Option σ
  | 0, s => some s
  | k + 1, s => (f s).bind (iterate f k)

/-! ## `Computer/main.c` -/

namespace Computer

/-- `#define ROW_LENGTH 80`. -/
def ROW_LENGTH : Nat := 80

/-- `#define CURRENT_RULE 30`. -/
def CURRENT_RULE : Int := 30

/-- Array number of `int DATA[ROW_LENGTH * 2]`. -/
def DATA : Nat := 0

/-- The globals of `Computer/main.c` and the text written to standard output. -/
structure State where
  /-- The arrays: `[DATA]`. -/
  mem : Mem
  /-- `int* current_cell_states`. -/
  current_cell_states : Option Ptr
  /-- `int* next_cell_states`. -/
  next_cell_states : Option Ptr
  /-- `int* temp`. -/
  temp : Option Ptr
  /-- Characters written by `printf`. -/
  out : List Char
deriving DecidableEq

/-- State at program start: objects of static storage duration are zero-initialised. -/
def start (N : Nat) : State :=
  { mem := [List.replicate (N * 2) 0]
    current_cell_states := none
    next_cell_states := none
    temp := none
    out := [] }

/-- Lines 17-21 of `main`: `current_cell_states = DATA; next_cell_states = DATA+ROW_LENGTH;
current_cell_states[ROW_LENGTH/2] = 1;`. -/
def init (N : Nat) (s : State) : Option State :=
  let current : Ptr := ⟨DATA, 0⟩
  let next : Ptr := ⟨DATA, N⟩
  (store s.mem current (Int.tdiv (N : Int) 2) 1).bind fun m =>
  some { s with mem := m, current_cell_states := some current, next_cell_states := some next }

/-- Lines 25-28 of `main`: print the current row, `#` for a non-zero cell and `.` for a zero
cell, then a newline. -/
def display (N : Nat) (s : State) : Option State :=
  s.current_cell_states.bind fun current =>
  (forUpTo N (fun i out =>
      (load s.mem current i).bind fun v => some (out ++ [if v ≠ 0 then '#' else '.']))
    s.out).bind fun out =>
  some { s with out := out ++ [Char.ofNat 10] }

/-- Lines 31-42 of `main`: the next-state loop followed by the exchange of the two pointers. -/
def advance (N : Nat) (rule : Int) (s : State) : Option State :=
  s.current_cell_states.bind fun current =>
  s.next_cell_states.bind fun next =>
  (nextStateLoop N (stateBasedOnNeighbors rule) current next s.mem).bind fun m =>
  some { s with
    mem := m
    temp := s.current_cell_states
    current_cell_states := s.next_cell_states
    next_cell_states := s.current_cell_states }

/-- Lines 24-42 of `main`: the body of the loop over `t`. -/
def loopBody (N : Nat) (rule : Int) (s : State) : Option State :=
  (display N s).bind (advance N rule)

/-- The function `main` for row length `N` and rule number `rule`; the state it leaves behind when
it returns. -/
def run (N : Nat) (rule : Int) : Option State :=
  (init N (start N)).bind fun s => forUpTo 1000 (fun _ s => loopBody N rule s) s

/-- The program `Computer/main.c`. -/
def main : Option State := run ROW_LENGTH CURRENT_RULE

/-- The row `current_cell_states[0 .. N-1]`. -/
def currentRow (N : Nat) (s : State) : Option (List Int) :=
  s.current_cell_states.bind fun p => rowAt s.mem p N

/-- The row `next_cell_states[0 .. N-1]`. -/
def nextRow (N : Nat) (s : State) : Option (List Int) :=
  s.next_cell_states.bind fun p => rowAt s.mem p N

end Computer

/-! ## `Arduino/src/main.cpp` -/

namespace Arduino

/-- `#define LED_PIN_COUNT 8`. -/
def LED_PIN_COUNT : Nat := 8

/-- `#define ROW_LENGTH (5*LED_PIN_COUNT)`. -/
def ROW_LENGTH : Nat := 5 * LED_PIN_COUNT

/-- Array number of `int setA[ROW_LENGTH]`. -/
def setA : Nat := 0

/-- Array number of `int setB[ROW_LENGTH]`. -/
def setB : Nat := 1

/-- Initialiser of `int ruleset[] = {0, 1, 1, 1, 1, 0, 0, 0}`. -/
def ruleset : List Int := [0, 1, 1, 1, 1, 0, 0, 0]

/-- One element of `CRGB leds[ROW_LENGTH]`: three bytes. -/
structure CRGB where
  /-- Red. -/
  r : Nat
  /-- Green. -/
  g : Nat
  /-- Blue. -/
  b : Nat
deriving DecidableEq, Repr

/-- The globals of `Arduino/src/main.cpp` and the text written to `Serial`.  The calls into the
FastLED library (`addLeds`, `show`), `delay` and `Serial.begin` are not part of the state. -/
structure State where
  /-- `CRGB leds[ROW_LENGTH]`. -/
  leds : List CRGB
  /-- `int generation`. -/
  generation : Int
  /-- `int ruleset[]`. -/
  ruleset : List Int
  /-- The arrays: `[setA, setB]`. -/
  mem : Mem
  /-- `int *setC`. -/
  setC : Option Ptr
  /-- `int *current`. -/
  current : Option Ptr
  /-- `int *next`. -/
  next : Option Ptr
  /-- Text written by `Serial.print` and `Serial.println`. -/
  serial : String
deriving DecidableEq

/-- State at program start: `ruleset` has its initialiser, every other global is zero. -/
def start (N : Nat) : State :=
  { leds := List.replicate N ⟨0, 0, 0⟩
    generation := 0
    ruleset := ruleset
    mem := [List.replicate N 0, List.replicate N 0]
    setC := none
    current := none
    next := none
    serial := "" }

/-- Lines 35-42 of `setup`: clear `setA`, seed `setA[ROW_LENGTH / 2]`, reset `generation`, point
`current` at `setA` and `next` at `setB`. -/
def setup (N : Nat) (s : State) : Option State :=
  (forUpTo N (fun i m => store m ⟨setA, 0⟩ i 0) s.mem).bind fun m =>
  (store m ⟨setA, 0⟩ (Int.tdiv (N : Int) 2) 1).bind fun m =>
  some { s with
    mem := m
    generation := 0
    current := some ⟨setA, 0⟩
    next := some ⟨setB, 0⟩ }

/-- Assignment to the three bytes of `leds[i]` (lines 55-61). -/
def setLed (leds : List CRGB) (i : Int) (r : Nat) : Option (List CRGB) :=
  if 0 ≤ i ∧ i.toNat < leds.length then some (leds.set i.toNat ⟨r, 0, 0⟩) else none

/-- Lines 53-62 of `generate`: red channel `255` for a non-zero cell, `0` for a zero cell. -/
def ledLoop (N : Nat) (m : Mem) (current : Ptr) (leds : List CRGB) : Option (List CRGB) :=
  forUpTo N (fun i leds =>
    (load m current i).bind fun v => setLed leds i (if v ≠ 0 then 255 else 0)) leds

/-- The loop `for (...) Serial.print(current[i], DEC);` followed by `Serial.println()`
(`Arduino/src/main.cpp:66-70`, `src/main.cpp:33-37`). -/
def serialDump (N : Nat) (m : Mem) (current : Ptr) (serial : String) : Option String :=
  (forUpTo N (fun i out => (load m current i).bind fun v => some (out ++ toString v))
    serial).bind fun out =>
  some (out ++ "\r\n")

/-- The function `generate` (lines 51-89). -/
def generate (N : Nat) (s : State) : Option State :=
  s.current.bind fun current =>
  (ledLoop N s.mem current s.leds).bind fun leds =>
  (serialDump N s.mem current s.serial).bind fun serial =>
  s.next.bind fun next =>
  (nextStateLoop N (rulesetLookup s.ruleset) current next s.mem).bind fun m =>
  some { s with
    leds := leds
    serial := serial
    mem := m
    setC := s.current
    current := s.next
    next := s.current
    generation := wrap (s.generation + 1) }

/-- The row `current[0 .. N-1]`. -/
def currentRow (N : Nat) (s : State) : Option (List Int) :=
  s.current.bind fun p => rowAt s.mem p N

/-- The row `next[0 .. N-1]`. -/
def nextRow (N : Nat) (s : State) : Option (List Int) :=
  s.next.bind fun p => rowAt s.mem p N

end Arduino

/-! ## `src/main.cpp` -/

namespace Src

/-- The row length of `src/main.cpp`, written as the literal `8` throughout that file. -/
def ROW_LENGTH : Nat := 8

/-- Initialiser of `int ruleset[] = {0, 1, 1, 1, 1, 0, 0, 0}`. -/
def ruleset : List Int := [0, 1, 1, 1, 1, 0, 0, 0]

/-- The globals of `src/main.cpp` and the text written to `Serial`. -/
structure State where
  /-- `int generation`. -/
  generation : Int
  /-- `int ruleset[]`. -/
  ruleset : List Int
  /-- The arrays: `[setA, setB]`. -/
  mem : Mem
  /-- `int *setC`. -/
  setC : Option Ptr
  /-- `int *current`. -/
  current : Option Ptr
  /-- `int *next`. -/
  next : Option Ptr
  /-- Text written by `Serial.print` and `Serial.println`. -/
  serial : String
deriving DecidableEq

/-- State at program start; `setup` of this variant assigns none of these globals. -/
def start (N : Nat) : State :=
  { generation := 0
    ruleset := ruleset
    mem := [List.replicate N 0, List.replicate N 0]
    setC := none
    current := none
    next := none
    serial := "" }

/-- The function `generate` (lines 31-56). -/
def generate (N : Nat) (s : State) : Option State :=
  s.current.bind fun current =>
  (Arduino.serialDump N s.mem current s.serial).bind fun serial =>
  s.next.bind fun next =>
  (nextStateLoop N (rulesetLookup s.ruleset) current next s.mem).bind fun m =>
  some { s with
    serial := serial
    mem := m
    setC := s.current
    current := s.next
    next := s.current
    generation := wrap (s.generation + 1) }

/-- The row `current[0 .. N-1]`. -/
def currentRow (N : Nat) (s : State) : Option (List Int) :=
  s.current.bind fun p => rowAt s.mem p N

/-- The row `next[0 .. N-1]`. -/
def nextRow (N : Nat) (s : State) : Option (List Int) :=
  s.next.bind fun p => rowAt s.mem p N

end Src

/-! ## The step in the words of the specification -/

/-- Index of the left neighbour of cell `i` in a circular row of `N` cells, `(i - 1 + N) % N`
with the mathematical remainder. -/
def leftIndex (N i : Nat) : Nat := (((i : Int) - 1 + (N : Int)) % (N : Int)).toNat

/-- Index of the right neighbour of cell `i` in a circular row of `N` cells, `(i + 1) % N`. -/
def rightIndex (N i : Nat) : Nat := (i + 1) % N

/-- Cell `i` of the successor of `row` as the specification words it:
`rule(row[(i-1+N) % N], row[i], row[(i+1) % N])` with `N` the length of the row. -/
def cellAfter (rule : Int → Int → Int → Option Int) (row : List Int) (i : Nat) : Option Int :=
  rule (row.getD (leftIndex row.length i) 0) (row.getD i 0) (row.getD (rightIndex row.length i) 0)

/-- The single-seed row of `N` cells: every cell `0` except cell `N / 2`, which is `1`. -/
def seedRow (N : Nat) : List Int := (List.replicate N 0).set (N / 2) 1

/-- C `a ^ b` on `int`; it occurs in no source file and serves to state the closed form
`l XOR (c OR r)` of rule 30. -/
def bitXor (a b : Int) : Int := toSigned (toUnsigned a ^^^ toUnsigned b)

/-- The line of text that renders a row: `#` for a non-zero cell and `.` for a zero cell, in
index order, followed by a newline. -/
def renderRow (row : List Int) : List Char :=
  row.map (fun v => if v ≠ 0 then '#' else '.') ++ [Char.ofNat 10]

/-! ## Well-formed states -/

/-- Two non-null pointers delimit two rows of `N` cells inside the arrays that share no cell. -/
def twoBuffers (N : Nat) (m : Mem) (current next : Option Ptr) : Prop :=
  match current, next with
  | some cur, some nxt =>
    (rowAt m cur N).isSome = true ∧ (rowAt m nxt N).isSome = true ∧ disjointBuffers N cur nxt
  | _, _ => False

instance (N : Nat) (m : Mem) (current next : Option Ptr) :
    Decidable (twoBuffers N m current next) := by
  unfold twoBuffers; split <;> infer_instance

/-- States of `Computer/main.c` in which `current_cell_states` and `next_cell_states` denote two
distinct buffers of `N` cells. -/
def Computer.wellFormed (N : Nat) (s : Computer.State) : Prop :=
  twoBuffers N s.mem s.current_cell_states s.next_cell_states

instance (N : Nat) (s : Computer.State) : Decidable (Computer.wellFormed N s) := by
  unfold Computer.wellFormed; infer_instance

/-- States of `Arduino/src/main.cpp` in which `current` and `next` denote two distinct buffers of
`N` cells, `leds` has `N` elements and `ruleset` has its eight entries. -/
def Arduino.wellFormed (N : Nat) (s : Arduino.State) : Prop :=
  twoBuffers N s.mem s.current s.next ∧ s.leds.length = N ∧ s.ruleset.length = 8

instance (N : Nat) (s : Arduino.State) : Decidable (Arduino.wellFormed N s) := by
  unfold Arduino.wellFormed; infer_instance

/-- States of `src/main.cpp` in which `current` and `next` denote two distinct buffers of `N`
cells and `ruleset` has its eight entries. -/
def Src.wellFormed (N : Nat) (s : Src.State) : Prop :=
  twoBuffers N s.mem s.current s.next ∧ s.ruleset.length = 8

instance (N : Nat) (s : Src.State) : Decidable (Src.wellFormed N s) := by
  unfold Src.wellFormed; infer_instance

/-! ## Machine-integer lemmas -/

theorem bitAnd_one (x : Int) : bitAnd x 1 = x % 2 := by
  unfold bitAnd toSigned toUnsigned
  have h1 : ((1:Int) % 4294967296).toNat = 1 := by decide
  rw [h1, Nat.and_one_is_mod]
  have : (x % 4294967296).toNat % 2 < 2147483648 := by omega
  rw [if_pos this]
  omega

theorem neighbourhood_bits {l c r : Int} (hl : isBit l) (hc : isBit c) (hr : isBit r) :
    neighbourhood l c r = some (l * 4 + c * 2 + r) := by
  rcases hl with rfl | rfl <;> rcases hc with rfl | rfl <;> rcases hr with rfl | rfl <;> decide

theorem bits_code_range {l c r : Int} (hl : isBit l) (hc : isBit c) (hr : isBit r) :
    0 ≤ l * 4 + c * 2 + r ∧ l * 4 + c * 2 + r ≤ 7 := by
  rcases hl with rfl | rfl <;> rcases hc with rfl | rfl <;> rcases hr with rfl | rfl <;> decide

theorem stateBasedOnNeighbors_bits (rule : Int) {l c r : Int}
    (hl : isBit l) (hc : isBit c) (hr : isBit r) :
    stateBasedOnNeighbors rule l c r
      = some (Int.shiftRight rule (l * 4 + c * 2 + r).toNat % 2) := by
  have hrange := bits_code_range hl hc hr
  have h32 : 0 ≤ l * 4 + c * 2 + r ∧ l * 4 + c * 2 + r < 32 := ⟨hrange.1, by omega⟩
  simp only [stateBasedOnNeighbors, neighbourhood_bits hl hc hr, Option.some_bind, shr,
    if_pos h32, bitAnd_one]

theorem emod_two_isBit (x : Int) : isBit (x % 2) := by
  unfold isBit; omega

theorem stateBasedOnNeighbors_isBit (rule : Int) {l c r v : Int}
    (hl : isBit l) (hc : isBit c) (hr : isBit r)
    (h : stateBasedOnNeighbors rule l c r = some v) : isBit v := by
  rw [stateBasedOnNeighbors_bits rule hl hc hr] at h
  cases h
  exact emod_two_isBit _

theorem readArray_lt (a : List Int) {i : Int} (h0 : 0 ≤ i) (h1 : i < a.length) :
    ∃ v, readArray a i = some v ∧ v ∈ a := by
  have hlt : i.toNat < a.length := by omega
  refine ⟨a[i.toNat], ?_, List.getElem_mem _⟩
  simp [readArray, h0, List.getElem?_eq_getElem hlt]

theorem rulesetLookup_bits (ruleset : List Int) (h8 : ruleset.length = 8) {l c r : Int}
    (hl : isBit l) (hc : isBit c) (hr : isBit r) :
    ∃ v, rulesetLookup ruleset l c r = some v ∧ v ∈ ruleset
      ∧ ruleset[(l * 4 + c * 2 + r).toNat]? = some v := by
  have hrange := bits_code_range hl hc hr
  have hlt : (l * 4 + c * 2 + r).toNat < ruleset.length := by omega
  refine ⟨ruleset[(l * 4 + c * 2 + r).toNat], ?_, List.getElem_mem _, List.getElem?_eq_getElem hlt⟩
  simp [rulesetLookup, neighbourhood_bits hl hc hr, readArray, hrange.1,
    List.getElem?_eq_getElem hlt]

/-! ## Neighbour indices -/

theorem left_index_tmod {N : Nat} {i : Int} (h0 : 0 ≤ i) (hN : i < N) :
    0 ≤ (i - 1) + (N : Int) ∧ 0 ≤ Int.tmod ((i - 1) + (N : Int)) N
      ∧ Int.tmod ((i - 1) + (N : Int)) N < N
      ∧ Int.tmod ((i - 1) + (N : Int)) N = (leftIndex N i.toNat : Int) := by
  have hpos : (0 : Int) ≤ (i - 1) + (N : Int) := by omega
  have hN0 : (0 : Int) ≤ (N : Int) := by omega
  have hi : ((i.toNat : Nat) : Int) = i := Int.toNat_of_nonneg h0
  rw [Int.tmod_eq_emod hpos hN0]
  have hnn : 0 ≤ ((i - 1) + (N : Int)) % (N : Int) := Int.emod_nonneg _ (by omega)
  have hlt : ((i - 1) + (N : Int)) % (N : Int) < N := Int.emod_lt_of_pos _ (by omega)
  refine ⟨hpos, hnn, hlt, ?_⟩
  unfold leftIndex
  rw [hi, Int.toNat_of_nonneg hnn]

theorem right_index_tmod {N : Nat} {i : Int} (h0 : 0 ≤ i) (hN : i < N) :
    0 ≤ Int.tmod (i + 1) N ∧ Int.tmod (i + 1) N < N
      ∧ Int.tmod (i + 1) N = (rightIndex N i.toNat : Int) := by
  have hpos : (0 : Int) ≤ i + 1 := by omega
  have hN0 : (0 : Int) ≤ (N : Int) := by omega
  have hi : ((i.toNat : Nat) : Int) = i := Int.toNat_of_nonneg h0
  rw [Int.tmod_eq_emod hpos hN0]
  have hnn : 0 ≤ (i + 1) % (N : Int) := Int.emod_nonneg _ (by omega)
  have hlt : (i + 1) % (N : Int) < N := Int.emod_lt_of_pos _ (by omega)
  refine ⟨hnn, hlt, ?_⟩
  unfold rightIndex
  rw [Int.natCast_mod]
  push_cast
  rw [hi]

theorem leftIndex_lt {N i : Nat} (h : i < N) : leftIndex N i < N := by
  have := left_index_tmod (N := N) (i := (i : Int)) (by omega) (by omega)
  simp only [Int.toNat_natCast] at this
  omega

theorem rightIndex_lt {N i : Nat} (h : i < N) : rightIndex N i < N :=
  Nat.mod_lt _ (by omega)

theorem leftIndex_zero {N : Nat} (h : 1 ≤ N) : leftIndex N 0 = N - 1 := by
  unfold leftIndex
  have : ((0 : Nat) : Int) - 1 + (N : Int) = ((N - 1 : Nat) : Int) := by omega
  rw [this, ← Int.natCast_mod, Int.toNat_natCast]
  exact Nat.mod_eq_of_lt (by omega)

theorem rightIndex_last {N : Nat} (h : 1 ≤ N) : rightIndex N (N - 1) = 0 := by
  unfold rightIndex
  have : N - 1 + 1 = N := by omega
  rw [this, Nat.mod_self]

/-! ## Memory lemmas -/

theorem rowAt_eq_some {m : Mem} {p : Ptr} {N : Nat} {row : List Int} :
    rowAt m p N = some row ↔
      ∃ a, m[p.arr]? = some a ∧ p.off + N ≤ a.length ∧ row = (a.drop p.off).take N := by
  unfold rowAt
  cases hm : m[p.arr]? with
  | none => simp
  | some a =>
    simp only [Option.some_bind, Option.some.injEq, exists_eq_left']
    by_cases h : p.off + N ≤ a.length
    · rw [if_pos h]
      simp only [Option.some.injEq, h, true_and]
      exact eq_comm
    · simp [h]

theorem rowAt_length {m : Mem} {p : Ptr} {N : Nat} {row : List Int}
    (h : rowAt m p N = some row) : row.length = N := by
  obtain ⟨a, _, hlen, rfl⟩ := rowAt_eq_some.mp h
  simp only [List.length_take, List.length_drop]
  omega

theorem load_of_rowAt {m : Mem} {p : Ptr} {N : Nat} {row : List Int}
    (h : rowAt m p N = some row) {i : Int} (h0 : 0 ≤ i) (hN : i < N) :
    load m p i = some (row.getD i.toNat 0) := by
  obtain ⟨a, ha, hlen, rfl⟩ := rowAt_eq_some.mp h
  have hi : i.toNat < N := by omega
  have hnn : (0 : Int) ≤ (p.off : Int) + i := by omega
  have hidx : ((p.off : Int) + i).toNat = p.off + i.toNat := by omega
  have hlt : p.off + i.toNat < a.length := by omega
  simp only [load, ha, Option.some_bind, readArray, if_pos hnn, hidx,
    List.getD_eq_getElem?_getD, List.getElem?_take, if_pos hi, List.getElem?_drop,
    List.getElem?_eq_getElem hlt, Option.getD_some]

theorem store_rowAt {m : Mem} {q : Ptr} {N : Nat} {row : List Int}
    (h : rowAt m q N = some row) {i : Int} (h0 : 0 ≤ i) (hN : i < N) (v : Int) :
    ∃ m', store m q i v = some m' ∧ rowAt m' q N = some (row.set i.toNat v)
      ∧ ∀ p : Ptr, disjointBuffers N p q → rowAt m' p N = rowAt m p N := by
  obtain ⟨a, ha, hlen, rfl⟩ := rowAt_eq_some.mp h
  have hi : i.toNat < N := by omega
  have hnn : (0 : Int) ≤ (q.off : Int) + i := by omega
  have hidx : ((q.off : Int) + i).toNat = q.off + i.toNat := by omega
  have hlt : q.off + i.toNat < a.length := by omega
  have harr : q.arr < m.length := by
    rcases List.getElem?_eq_some.mp ha with ⟨hh, _⟩
    exact hh
  refine ⟨m.set q.arr (a.set (q.off + i.toNat) v), ?_, ?_, ?_⟩
  · simp only [store, ha, Option.some_bind, hidx]
    rw [if_pos ⟨hnn, hlt⟩]
  · rw [rowAt_eq_some]
    refine ⟨a.set (q.off + i.toNat) v, List.getElem?_set_self harr, by simpa using hlen, ?_⟩
    rw [List.drop_set, if_neg (by omega), List.set_take]
    congr 2
    omega
  · intro p hp
    unfold rowAt
    by_cases hpq : p.arr = q.arr
    · rw [hpq, List.getElem?_set_self harr, ha]
      simp only [Option.some_bind, List.length_set]
      by_cases hl : p.off + N ≤ a.length
      · rw [if_pos hl, if_pos hl]
        congr 1
        apply List.ext_getElem?
        intro k
        simp only [List.getElem?_take, List.getElem?_drop]
        by_cases hk : k < N
        · rw [if_pos hk, if_pos hk, List.getElem?_set_ne]
          rcases hp with hp | hp | hp
          · exact absurd hpq hp
          · omega
          · omega
        · rw [if_neg hk, if_neg hk]
      · rw [if_neg hl, if_neg hl]
    · rw [List.getElem?_set_ne (Ne.symm hpq)]

/-! ## Loop rules -/

theorem forLoop_inv {σ : Type} (bound : Int) (body : Int → σ → Option σ)
    (Inv : Int → σ → Prop)
    (hbody : ∀ i s, 0 ≤ i → i < bound → Inv i s → ∃ s', body i s = some s' ∧ Inv (i + 1) s') :
    ∀ (fuel : Nat) (i : Int) (s : σ), 0 ≤ i → i ≤ bound → bound - i < fuel → Inv i s →
      ∃ s', forLoop bound body fuel i s = some s' ∧ Inv bound s' := by
  intro fuel
  induction fuel with
  | zero => intro i s _ _ hf _; omega
  | succ fuel ih =>
    intro i s h0 hle hf hinv
    by_cases hlt : i < bound
    · obtain ⟨s1, hb, hinv1⟩ := hbody i s h0 hlt hinv
      obtain ⟨s2, hrun, hinv2⟩ := ih (i + 1) s1 (by omega) (by omega) (by omega) hinv1
      exact ⟨s2, by simp only [forLoop, if_pos hlt, hb, Option.some_bind, hrun], hinv2⟩
    · have : i = bound := by omega
      subst this
      exact ⟨s, by simp only [forLoop, if_neg hlt], hinv⟩

theorem forUpTo_inv {σ : Type} (n : Nat) (body : Int → σ → Option σ) (Inv : Int → σ → Prop)
    (hbody : ∀ i s, 0 ≤ i → i < (n : Int) → Inv i s →
      ∃ s', body i s = some s' ∧ Inv (i + 1) s')
    (s : σ) (h0 : Inv 0 s) : ∃ s', forUpTo n body s = some s' ∧ Inv n s' :=
  forLoop_inv (n : Int) body Inv hbody (n + 1) 0 s (le_refl _) (by omega) (by omega) h0

/-! ## The next-state loop -/

theorem nextStateBody_step (N : Nat) (rule : Int → Int → Int → Option Int) (cur nxt : Ptr)
    (row new : List Int) (m : Mem) (i : Int) (h0 : 0 ≤ i) (hN : i < N)
    (hcur : rowAt m cur N = some row) (hnxt : rowAt m nxt N = some new)
    (hdis : disjointBuffers N cur nxt) (v : Int) (hv : cellAfter rule row i.toNat = some v) :
    ∃ m', nextStateBody N rule cur nxt i m = some m' ∧ rowAt m' cur N = some row
      ∧ rowAt m' nxt N = some (new.set i.toNat v)
      ∧ ∀ p : Ptr, disjointBuffers N p nxt → rowAt m' p N = rowAt m p N := by
  obtain ⟨_, hl0, hl1, hl⟩ := left_index_tmod h0 hN
  obtain ⟨hr0, hr1, hr⟩ := right_index_tmod h0 hN
  have hlen : row.length = N := rowAt_length hcur
  obtain ⟨m', hst, hnew, hframe⟩ := store_rowAt hnxt h0 hN v
  refine ⟨m', ?_, ?_, hnew, hframe⟩
  · have e1 := load_of_rowAt hcur hl0 hl1
    have e2 := load_of_rowAt hcur h0 hN
    have e3 := load_of_rowAt hcur hr0 hr1
    rw [hl, Int.toNat_natCast] at e1
    rw [hr, Int.toNat_natCast] at e3
    rw [← hl] at e1
    rw [← hr] at e3
    unfold cellAfter at hv
    rw [hlen] at hv
    simp only [nextStateBody, e1, e2, e3, Option.some_bind, hv, hst]
  · rw [hframe cur hdis]
    exact hcur

theorem nextState_firstIterations (N : Nat) (rule : Int → Int → Int → Option Int) (cur nxt : Ptr)
    (m : Mem) (row : List Int)
    (hcur : rowAt m cur N = some row) (hnxt : (rowAt m nxt N).isSome)
    (hdis : disjointBuffers N cur nxt)
    (hrule : ∀ i, i < N → (cellAfter rule row i).isSome) (j : Nat) (hj : j ≤ N) :
    ∃ m' new, forUpTo j (nextStateBody N rule cur nxt) m = some m'
      ∧ rowAt m' cur N = some row ∧ rowAt m' nxt N = some new
      ∧ (∀ k, k < j → new[k]? = cellAfter rule row k)
      ∧ ∀ p : Ptr, disjointBuffers N p nxt → rowAt m' p N = rowAt m p N := by
  obtain ⟨new0, hnew0⟩ := Option.isSome_iff_exists.mp hnxt
  have key := forUpTo_inv j (nextStateBody N rule cur nxt)
    (fun i m' => rowAt m' cur N = some row
      ∧ (∃ new, rowAt m' nxt N = some new ∧ ∀ k : Nat, (k : Int) < i → new[k]? = cellAfter rule row k)
      ∧ ∀ p : Ptr, disjointBuffers N p nxt → rowAt m' p N = rowAt m p N)
    (by
      intro i m1 h0 hlt ⟨hc, ⟨new, hn, hcells⟩, hfr⟩
      have hiN : i < (N : Int) := by omega
      have hiN' : i.toNat < N := by omega
      obtain ⟨v, hv⟩ := Option.isSome_iff_exists.mp (hrule i.toNat hiN')
      obtain ⟨m2, hb, hc2, hn2, hfr2⟩ :=
        nextStateBody_step N rule cur nxt row new m1 i h0 hiN hc hn hdis v hv
      refine ⟨m2, hb, hc2, ⟨new.set i.toNat v, hn2, ?_⟩, ?_⟩
      · intro k hk
        have hnl : new.length = N := rowAt_length hn
        by_cases hki : i.toNat = k
        · subst hki
          rw [List.getElem?_set_self (by omega), hv]
        · rw [List.getElem?_set_ne hki]
          exact hcells k (by omega)
      · intro p hp
        rw [hfr2 p hp, hfr p hp])
    m ⟨hcur, ⟨new0, hnew0, by intro k hk; omega⟩, fun _ _ => rfl⟩
  obtain ⟨m', hrun, hc, ⟨new, hn, hcells⟩, hfr⟩ := key
  exact ⟨m', new, hrun, hc, hn, fun k hk => hcells k (by omega), hfr⟩

theorem nextStateLoop_spec (N : Nat) (rule : Int → Int → Int → Option Int) (cur nxt : Ptr)
    (m : Mem) (row : List Int)
    (hcur : rowAt m cur N = some row) (hnxt : (rowAt m nxt N).isSome)
    (hdis : disjointBuffers N cur nxt)
    (hrule : ∀ i, i < N → (cellAfter rule row i).isSome) :
    ∃ m' new, nextStateLoop N rule cur nxt m = some m'
      ∧ rowAt m' cur N = some row ∧ rowAt m' nxt N = some new
      ∧ (∀ k, k < N → new[k]? = cellAfter rule row k)
      ∧ ∀ p : Ptr, disjointBuffers N p nxt → rowAt m' p N = rowAt m p N :=
  nextState_firstIterations N rule cur nxt m row hcur hnxt hdis hrule N (le_refl _)

/-! ## Binary rows and the two rule encodings -/

theorem getD_isBit {row : List Int} (h : binaryRow row) (k : Nat) : isBit (row.getD k 0) := by
  rw [List.getD_eq_getElem?_getD]
  cases hk : row[k]? with
  | none => exact Or.inl rfl
  | some x =>
    obtain ⟨hlt, hx⟩ := List.getElem?_eq_some.mp hk
    exact h x (hx ▸ List.getElem_mem hlt)

theorem cellAfter_number (rule : Int) {row : List Int} (h : binaryRow row) (i : Nat) :
    ∃ v, cellAfter (stateBasedOnNeighbors rule) row i = some v ∧ isBit v := by
  unfold cellAfter
  rw [stateBasedOnNeighbors_bits rule (getD_isBit h _) (getD_isBit h _) (getD_isBit h _)]
  exact ⟨_, rfl, emod_two_isBit _⟩

theorem cellAfter_table {ruleset : List Int} (h8 : ruleset.length = 8) {row : List Int}
    (h : binaryRow row) (i : Nat) :
    ∃ v, cellAfter (rulesetLookup ruleset) row i = some v ∧ v ∈ ruleset := by
  unfold cellAfter
  obtain ⟨v, hv, hmem, _⟩ :=
    rulesetLookup_bits ruleset h8 (getD_isBit h (leftIndex row.length i)) (getD_isBit h i)
      (getD_isBit h (rightIndex row.length i))
  exact ⟨v, hv, hmem⟩

/-! ## One step of each program -/

theorem twoBuffers_iff {N : Nat} {m : Mem} {c n : Option Ptr} :
    twoBuffers N m c n ↔ ∃ cur nxt, c = some cur ∧ n = some nxt
      ∧ (rowAt m cur N).isSome = true ∧ (rowAt m nxt N).isSome = true
      ∧ disjointBuffers N cur nxt := by
  cases c with
  | none => simp [twoBuffers]
  | some cur =>
    cases n with
    | none => simp [twoBuffers]
    | some nxt => simp [twoBuffers]

theorem disjointBuffers_symm {N : Nat} {p q : Ptr} (h : disjointBuffers N p q) :
    disjointBuffers N q p := by
  rcases h with h | h | h
  · exact Or.inl (Ne.symm h)
  · exact Or.inr (Or.inr h)
  · exact Or.inr (Or.inl h)

theorem binaryRow_of_cells {new : List Int} {N : Nat} (hlen : new.length = N)
    (h : ∀ k, k < N → ∃ v, new[k]? = some v ∧ isBit v) : binaryRow new := by
  intro x hx
  obtain ⟨k, hk, rfl⟩ := List.getElem_of_mem hx
  obtain ⟨v, hv, hb⟩ := h k (by omega)
  rw [List.getElem?_eq_getElem hk] at hv
  cases hv
  exact hb

theorem step_core (N : Nat) (rule : Int → Int → Int → Option Int) (m : Mem) (c n : Option Ptr)
    (row : List Int) (hwf : twoBuffers N m c n) (hrow : c.bind (fun p => rowAt m p N) = some row)
    (hrule : ∀ i, i < N → (cellAfter rule row i).isSome) :
    ∃ cur nxt m' new, c = some cur ∧ n = some nxt
      ∧ nextStateLoop N rule cur nxt m = some m'
      ∧ rowAt m cur N = some row
      ∧ rowAt m' nxt N = some new ∧ rowAt m' cur N = some row ∧ new.length = N
      ∧ (∀ k, k < N → new[k]? = cellAfter rule row k)
      ∧ twoBuffers N m' n c := by
  obtain ⟨cur, nxt, rfl, rfl, _, hn, hdis⟩ := twoBuffers_iff.mp hwf
  simp only [Option.some_bind] at hrow
  obtain ⟨m', new, hrun, hc', hn', hcells, _⟩ :=
    nextStateLoop_spec N rule cur nxt m row hrow hn hdis hrule
  refine ⟨cur, nxt, m', new, rfl, rfl, hrun, hrow, hn', hc', rowAt_length hn', hcells, ?_⟩
  exact twoBuffers_iff.mpr ⟨nxt, cur, rfl, rfl, by simp [hn'], by simp [hc'],
    disjointBuffers_symm hdis⟩

theorem forUpTo_read {σ : Type} (N : Nat) (m : Mem) (cur : Ptr) (f : σ → Int → σ)
    (h : (rowAt m cur N).isSome = true) (a : σ) :
    ∃ a', forUpTo N (fun i a => (load m cur i).bind fun v => some (f a v)) a = some a' := by
  obtain ⟨row, hrow⟩ := Option.isSome_iff_exists.mp h
  obtain ⟨a', ha, _⟩ := forUpTo_inv N (fun i a => (load m cur i).bind fun v => some (f a v))
    (fun _ _ => True)
    (by
      intro i a h0 hlt _
      refine ⟨f a (row.getD i.toNat 0), ?_, trivial⟩
      show ((load m cur i).bind fun v => some (f a v)) = _
      rw [load_of_rowAt hrow h0 hlt]
      rfl)
    a trivial
  exact ⟨a', ha⟩

namespace Computer

theorem display_spec (N : Nat) (s : State) (hwf : wellFormed N s) :
    ∃ out, display N s = some { s with out := out } := by
  obtain ⟨cur, nxt, hc, _, hcs, _, _⟩ := twoBuffers_iff.mp hwf
  obtain ⟨out, hout⟩ := forUpTo_read N s.mem cur
    (fun (out : List Char) v => out ++ [if v ≠ 0 then '#' else '.']) hcs s.out
  exact ⟨out ++ [Char.ofNat 10], by simp only [display, hc, Option.some_bind, hout]⟩

theorem advance_spec (N : Nat) (rule : Int) (s : State) (row : List Int)
    (hwf : wellFormed N s) (hrow : currentRow N s = some row) (hbin : binaryRow row) :
    ∃ s' new, advance N rule s = some s'
      ∧ currentRow N s' = some new ∧ nextRow N s' = some row ∧ new.length = N
      ∧ (∀ k, k < N → new[k]? = cellAfter (stateBasedOnNeighbors rule) row k)
      ∧ binaryRow new ∧ wellFormed N s'
      ∧ s'.current_cell_states = s.next_cell_states
      ∧ s'.next_cell_states = s.current_cell_states
      ∧ s'.temp = s.current_cell_states ∧ s'.out = s.out := by
  obtain ⟨cur, nxt, m', new, hc, hn, hrun, _, hnew, hold, hlen, hcells, hwf'⟩ :=
    step_core N (stateBasedOnNeighbors rule) s.mem s.current_cell_states s.next_cell_states row
      hwf hrow
      (fun i _ => by
        obtain ⟨v, hv, _⟩ := cellAfter_number rule hbin i
        simp [hv])
  refine ⟨{ s with mem := m', temp := s.current_cell_states,
                   current_cell_states := s.next_cell_states,
                   next_cell_states := s.current_cell_states }, new, ?_, ?_, ?_, hlen, hcells,
    ?_, hwf', rfl, rfl, rfl, rfl⟩
  · simp only [advance, hc, hn, Option.some_bind, hrun]
  · simp only [currentRow, hn, Option.some_bind, hnew]
  · simp only [nextRow, hc, Option.some_bind, hold]
  · refine binaryRow_of_cells hlen (fun k hk => ?_)
    obtain ⟨v, hv, hb⟩ := cellAfter_number rule hbin k
    exact ⟨v, by rw [hcells k hk, hv], hb⟩

end Computer

namespace Arduino

theorem ledLoop_spec (N : Nat) (m : Mem) (cur : Ptr) (leds : List CRGB)
    (h : (rowAt m cur N).isSome = true) (hl : leds.length = N) :
    ∃ leds', ledLoop N m cur leds = some leds' ∧ leds'.length = N := by
  obtain ⟨row, hrow⟩ := Option.isSome_iff_exists.mp h
  exact forUpTo_inv N
    (fun i leds => (load m cur i).bind fun v => setLed leds i (if v ≠ 0 then 255 else 0))
    (fun _ leds => leds.length = N)
    (by
      intro i leds h0 hlt hlen
      have hi : i.toNat < leds.length := by omega
      refine ⟨leds.set i.toNat ⟨if row.getD i.toNat 0 ≠ 0 then 255 else 0, 0, 0⟩, ?_, ?_⟩
      · show ((load m cur i).bind fun v => setLed leds i (if v ≠ 0 then 255 else 0)) = _
        rw [load_of_rowAt hrow h0 hlt]
        simp only [Option.some_bind, setLed]
        rw [if_pos ⟨h0, hi⟩]
      · simpa using hlen)
    leds hl

theorem serialDump_spec (N : Nat) (m : Mem) (cur : Ptr) (serial : String)
    (h : (rowAt m cur N).isSome = true) : ∃ out, serialDump N m cur serial = some out := by
  obtain ⟨out, hout⟩ := forUpTo_read N m cur (fun (out : String) v => out ++ toString v) h serial
  exact ⟨out ++ "\r\n", by simp only [serialDump, hout, Option.some_bind]⟩

theorem generate_spec (N : Nat) (s : State) (row : List Int)
    (hwf : wellFormed N s) (hrow : currentRow N s = some row) (hbin : binaryRow row) :
    ∃ s' new, generate N s = some s'
      ∧ currentRow N s' = some new ∧ nextRow N s' = some row ∧ new.length = N
      ∧ (∀ k, k < N → new[k]? = cellAfter (rulesetLookup s.ruleset) row k)
      ∧ (∀ x ∈ new, x ∈ s.ruleset) ∧ wellFormed N s'
      ∧ s'.current = s.next ∧ s'.next = s.current ∧ s'.setC = s.current
      ∧ s'.generation = wrap (s.generation + 1) ∧ s'.ruleset = s.ruleset := by
  obtain ⟨hbuf, hleds, h8⟩ := hwf
  obtain ⟨cur, nxt, m', new, hc, hn, hrun, hcur, hnew, hold, hlen, hcells, hwf'⟩ :=
    step_core N (rulesetLookup s.ruleset) s.mem s.current s.next row hbuf hrow
      (fun i _ => by
        obtain ⟨v, hv, _⟩ := cellAfter_table h8 hbin i
        simp [hv])
  have hcs : (rowAt s.mem cur N).isSome = true := by simp [hcur]
  obtain ⟨leds', hled, hledlen⟩ := ledLoop_spec N s.mem cur s.leds hcs hleds
  obtain ⟨out, hser⟩ := serialDump_spec N s.mem cur s.serial hcs
  refine ⟨{ s with leds := leds', serial := out, mem := m', setC := s.current,
                   current := s.next, next := s.current,
                   generation := wrap (s.generation + 1) }, new, ?_, ?_, ?_, hlen, hcells,
    ?_, ⟨hwf', hledlen, h8⟩, rfl, rfl, rfl, rfl, rfl⟩
  · simp only [generate, hc, hn, Option.some_bind, hled, hser, hrun]
  · simp only [currentRow, hn, Option.some_bind, hnew]
  · simp only [nextRow, hc, Option.some_bind, hold]
  · intro x hx
    obtain ⟨k, hk, rfl⟩ := List.getElem_of_mem hx
    obtain ⟨v, hv, hmem⟩ := cellAfter_table h8 hbin k
    have := hcells k (by omega)
    rw [List.getElem?_eq_getElem hk, hv] at this
    cases this
    exact hmem

end Arduino

namespace Src

theorem generate_spec_src (N : Nat) (s : State) (row : List Int)
    (hwf : wellFormed N s) (hrow : currentRow N s = some row) (hbin : binaryRow row) :
    ∃ s' new, generate N s = some s'
      ∧ currentRow N s' = some new ∧ nextRow N s' = some row ∧ new.length = N
      ∧ (∀ k, k < N → new[k]? = cellAfter (rulesetLookup s.ruleset) row k)
      ∧ (∀ x ∈ new, x ∈ s.ruleset) ∧ wellFormed N s'
      ∧ s'.current = s.next ∧ s'.next = s.current ∧ s'.setC = s.current
      ∧ s'.generation = wrap (s.generation + 1) ∧ s'.ruleset = s.ruleset := by
  obtain ⟨hbuf, h8⟩ := hwf
  obtain ⟨cur, nxt, m', new, hc, hn, hrun, hcur, hnew, hold, hlen, hcells, hwf'⟩ :=
    step_core N (rulesetLookup s.ruleset) s.mem s.current s.next row hbuf hrow
      (fun i _ => by
        obtain ⟨v, hv, _⟩ := cellAfter_table h8 hbin i
        simp [hv])
  have hcs : (rowAt s.mem cur N).isSome = true := by simp [hcur]
  obtain ⟨out, hser⟩ := Arduino.serialDump_spec N s.mem cur s.serial hcs
  refine ⟨{ s with serial := out, mem := m', setC := s.current,
                   current := s.next, next := s.current,
                   generation := wrap (s.generation + 1) }, new, ?_, ?_, ?_, hlen, hcells,
    ?_, ⟨hwf', h8⟩, rfl, rfl, rfl, rfl, rfl⟩
  · simp only [generate, hc, hn, Option.some_bind, hser, hrun]
  · simp only [currentRow, hn, Option.some_bind, hnew]
  · simp only [nextRow, hc, Option.some_bind, hold]
  · intro x hx
    obtain ⟨k, hk, rfl⟩ := List.getElem_of_mem hx
    obtain ⟨v, hv, hmem⟩ := cellAfter_table h8 hbin k
    have := hcells k (by omega)
    rw [List.getElem?_eq_getElem hk, hv] at this
    cases this
    exact hmem

end Src

/-! ## Initial states -/

theorem seedRow_binary (N : Nat) : binaryRow (seedRow N) := by
  intro x hx
  rcases List.mem_or_eq_of_mem_set hx with h | h
  · exact Or.inl (List.eq_of_mem_replicate h)
  · exact Or.inr h

theorem seedRow_length (N : Nat) : (seedRow N).length = N := by
  simp [seedRow]

theorem seedRow_getD (N i : Nat) (hi : i < N) :
    (seedRow N).getD i 0 = if i = N / 2 then 1 else 0 := by
  unfold seedRow
  rw [List.getD_eq_getElem?_getD, List.getElem?_set]
  by_cases h : N / 2 = i
  · subst h
    simp [hi]
  · rw [if_neg h, if_neg (Ne.symm h), List.getElem?_replicate, if_pos hi]
    rfl

theorem store_at {m : Mem} {a : List Int} (p : Ptr) (k : Nat) (v : Int)
    (ha : m[p.arr]? = some a) (hk : p.off + k < a.length) :
    store m p (k : Int) v = some (m.set p.arr (a.set (p.off + k) v)) := by
  have hidx : ((p.off : Int) + (k : Int)).toNat = p.off + k := by omega
  simp only [store, ha, Option.some_bind, hidx]
  rw [if_pos ⟨by omega, hk⟩]

namespace Computer

theorem init_spec (N : Nat) (hN : 1 ≤ N) :
    ∃ s, init N (start N) = some s ∧ wellFormed N s
      ∧ currentRow N s = some (seedRow N) ∧ nextRow N s = some (List.replicate N 0)
      ∧ s.current_cell_states = some ⟨DATA, 0⟩ ∧ s.next_cell_states = some ⟨DATA, N⟩
      ∧ s.out = [] := by
  have hdiv : Int.tdiv (N : Int) 2 = ((N / 2 : Nat) : Int) := (Int.ofNat_tdiv N 2).symm
  have hlt : N / 2 < N * 2 := by omega
  have hcur : rowAt [(List.replicate (N * 2) (0 : Int)).set (N / 2) 1] ⟨DATA, 0⟩ N
      = some (seedRow N) := by
    rw [rowAt_eq_some]
    refine ⟨(List.replicate (N * 2) (0 : Int)).set (N / 2) 1, rfl, ?_, ?_⟩
    · rw [List.length_set, List.length_replicate]
      show 0 + N ≤ N * 2
      omega
    · show seedRow N = List.take N (List.drop 0 _)
      rw [List.drop_zero, List.set_take, List.take_replicate, seedRow]
      congr 2
      omega
  have hnxt : rowAt [(List.replicate (N * 2) (0 : Int)).set (N / 2) 1] ⟨DATA, N⟩ N
      = some (List.replicate N 0) := by
    rw [rowAt_eq_some]
    refine ⟨(List.replicate (N * 2) (0 : Int)).set (N / 2) 1, rfl, ?_, ?_⟩
    · rw [List.length_set, List.length_replicate]
      show N + N ≤ N * 2
      omega
    · show _ = List.take N (List.drop N _)
      rw [List.drop_set, if_pos (by omega), List.drop_replicate, List.take_replicate]
      congr 1
      omega
  have hst : store (start N).mem ⟨DATA, 0⟩ ((N / 2 : Nat) : Int) 1
      = some [(List.replicate (N * 2) (0 : Int)).set (N / 2) 1] := by
    rw [store_at (a := List.replicate (N * 2) (0 : Int)) ⟨DATA, 0⟩ (N / 2) 1 rfl
      (by rw [List.length_replicate]; show 0 + N / 2 < N * 2; omega)]
    show some [(List.replicate (N * 2) (0 : Int)).set (0 + N / 2) 1] = _
    rw [Nat.zero_add]
  refine ⟨{ start N with mem := [(List.replicate (N * 2) 0).set (N / 2) 1],
                         current_cell_states := some ⟨DATA, 0⟩,
                         next_cell_states := some ⟨DATA, N⟩ }, ?_, ?_, ?_, ?_, rfl, rfl, rfl⟩
  · simp only [init, hdiv, hst, Option.some_bind]
  · exact twoBuffers_iff.mpr ⟨⟨DATA, 0⟩, ⟨DATA, N⟩, rfl, rfl, by simp [hcur], by simp [hnxt],
      Or.inr (Or.inl (by simp))⟩
  · simpa [currentRow] using hcur
  · simpa [nextRow] using hnxt

end Computer

namespace Arduino

theorem setup_spec (N : Nat) (hN : 1 ≤ N) :
    ∃ s, setup N (start N) = some s ∧ wellFormed N s
      ∧ currentRow N s = some (seedRow N) ∧ nextRow N s = some (List.replicate N 0)
      ∧ s.current = some ⟨setA, 0⟩ ∧ s.next = some ⟨setB, 0⟩
      ∧ s.generation = 0 ∧ s.ruleset = ruleset := by
  have hdiv : Int.tdiv (N : Int) 2 = ((N / 2 : Nat) : Int) := (Int.ofNat_tdiv N 2).symm
  have hlt : N / 2 < N := by omega
  have hloop : forUpTo N (fun i m => store m ⟨setA, 0⟩ i 0) (start N).mem
      = some [List.replicate N (0 : Int), List.replicate N (0 : Int)] := by
    obtain ⟨m', hm', hinv⟩ := forUpTo_inv N (fun i m => store m ⟨setA, 0⟩ i 0)
      (fun _ m => m = [List.replicate N (0 : Int), List.replicate N (0 : Int)])
      (by
        intro i m h0 hi hm
        subst hm
        have hi' : i.toNat < N := by omega
        refine ⟨_, ?_, rfl⟩
        show store _ _ i 0 = _
        have hcast : i = ((i.toNat : Nat) : Int) := (Int.toNat_of_nonneg h0).symm
        rw [hcast, store_at (a := List.replicate N (0 : Int)) ⟨setA, 0⟩ i.toNat 0 rfl
          (by rw [List.length_replicate]; show 0 + i.toNat < N; omega)]
        rw [List.set_replicate_self]
        rfl)
      (start N).mem rfl
    rw [hm', hinv]
  have hst : store [List.replicate N (0 : Int), List.replicate N (0 : Int)] ⟨setA, 0⟩
      ((N / 2 : Nat) : Int) 1
      = some [(List.replicate N (0 : Int)).set (N / 2) 1, List.replicate N (0 : Int)] := by
    rw [store_at (a := List.replicate N (0 : Int)) ⟨setA, 0⟩ (N / 2) 1 rfl
      (by rw [List.length_replicate]; show 0 + N / 2 < N; omega)]
    show some [(List.replicate N (0 : Int)).set (0 + N / 2) 1, _] = _
    rw [Nat.zero_add]
  have hcur : rowAt [(List.replicate N (0 : Int)).set (N / 2) 1, List.replicate N (0 : Int)]
      ⟨setA, 0⟩ N = some (seedRow N) := by
    rw [rowAt_eq_some]
    refine ⟨(List.replicate N (0 : Int)).set (N / 2) 1, rfl, ?_, ?_⟩
    · rw [List.length_set, List.length_replicate]
      show 0 + N ≤ N
      omega
    · show seedRow N = List.take N (List.drop 0 _)
      rw [List.drop_zero, List.set_take, List.take_replicate, seedRow]
      congr 2
      omega
  have hnxt : rowAt [(List.replicate N (0 : Int)).set (N / 2) 1, List.replicate N (0 : Int)]
      ⟨setB, 0⟩ N = some (List.replicate N 0) := by
    rw [rowAt_eq_some]
    refine ⟨List.replicate N (0 : Int), rfl, ?_, ?_⟩
    · rw [List.length_replicate]
      show 0 + N ≤ N
      omega
    · show _ = List.take N (List.drop 0 _)
      rw [List.drop_zero, List.take_replicate]
      congr 1
      omega
  refine ⟨{ start N with mem := [(List.replicate N 0).set (N / 2) 1, List.replicate N 0],
                         generation := 0, current := some ⟨setA, 0⟩,
                         next := some ⟨setB, 0⟩ }, ?_, ?_, ?_, ?_, rfl, rfl, rfl, rfl⟩
  · simp only [setup, hloop, Option.some_bind, hdiv, hst]
  · exact ⟨twoBuffers_iff.mpr ⟨⟨setA, 0⟩, ⟨setB, 0⟩, rfl, rfl, by simp [hcur], by simp [hnxt],
      Or.inl (by decide)⟩, by simp [start], rfl⟩
  · simpa [currentRow] using hcur
  · simpa [nextRow] using hnxt

end Arduino

/-! ## Iteration and frame lemmas -/

theorem iterate_succ {σ : Type} (f : σ → Option σ) (k : Nat) (s : σ) :
    iterate f (k + 1) s = (iterate f k s).bind f := by
  induction k generalizing s with
  | zero => simp [iterate]
  | succ k ih =>
    rw [iterate]
    cases hf : f s with
    | none => simp [iterate, hf]
    | some s1 =>
      rw [Option.some_bind, ih s1]
      conv => rhs; rw [iterate, hf, Option.some_bind]

theorem iterate_inv {σ : Type} (f : σ → Option σ) (Inv : Nat → σ → Prop)
    (hstep : ∀ j s, Inv j s → ∃ s', f s = some s' ∧ Inv (j + 1) s') (s : σ) (h0 : Inv 0 s) :
    ∀ k, ∃ s', iterate f k s = some s' ∧ Inv k s' := by
  intro k
  induction k with
  | zero => exact ⟨s, rfl, h0⟩
  | succ k ih =>
    obtain ⟨s1, h1, hinv1⟩ := ih
    obtain ⟨s2, h2, hinv2⟩ := hstep k s1 hinv1
    exact ⟨s2, by rw [iterate_succ, h1, Option.some_bind, h2], hinv2⟩

theorem store_frame {m m' : Mem} {q : Ptr} {N : Nat} {i v : Int}
    (h : store m q i v = some m') (h0 : 0 ≤ i) (hN : i < N) (p : Ptr)
    (hp : disjointBuffers N p q) : rowAt m' p N = rowAt m p N := by
  unfold store at h
  cases ha : m[q.arr]? with
  | none => simp [ha] at h
  | some a =>
    simp only [ha, Option.some_bind] at h
    split at h
    · cases h
      have harr : q.arr < m.length := by
        rcases List.getElem?_eq_some.mp ha with ⟨hh, _⟩
        exact hh
      have hidx : ((q.off : Int) + i).toNat = q.off + i.toNat := by omega
      rw [hidx]
      unfold rowAt
      by_cases hpq : p.arr = q.arr
      · rw [hpq, List.getElem?_set_self harr, ha]
        simp only [Option.some_bind, List.length_set]
        by_cases hl : p.off + N ≤ a.length
        · rw [if_pos hl, if_pos hl]
          congr 1
          apply List.ext_getElem?
          intro k
          simp only [List.getElem?_take, List.getElem?_drop]
          by_cases hk : k < N
          · rw [if_pos hk, if_pos hk, List.getElem?_set_ne]
            rcases hp with hp | hp | hp
            · exact absurd hpq hp
            · omega
            · omega
          · rw [if_neg hk, if_neg hk]
        · rw [if_neg hl, if_neg hl]
      · rw [List.getElem?_set_ne (Ne.symm hpq)]
    · cases h

theorem forLoop_preserves {σ : Type} (bound : Int) (body : Int → σ → Option σ)
    (Inv : σ → Prop)
    (hbody : ∀ i s s', 0 ≤ i → i < bound → Inv s → body i s = some s' → Inv s') :
    ∀ (fuel : Nat) (i : Int) (s s' : σ), 0 ≤ i → Inv s →
      forLoop bound body fuel i s = some s' → Inv s' := by
  intro fuel
  induction fuel with
  | zero => intro i s s' _ _ h; simp [forLoop] at h
  | succ fuel ih =>
    intro i s s' h0 hinv h
    rw [forLoop] at h
    by_cases hlt : i < bound
    · rw [if_pos hlt] at h
      cases hb : body i s with
      | none => simp [hb] at h
      | some s1 =>
        rw [hb, Option.some_bind] at h
        exact ih (i + 1) s1 s' (by omega) (hbody i s s1 h0 hlt hinv hb) h
    · rw [if_neg hlt] at h
      cases h
      exact hinv

theorem nextStateLoop_frame {N : Nat} {rule : Int → Int → Int → Option Int} {cur nxt : Ptr}
    {m m' : Mem} (h : nextStateLoop N rule cur nxt m = some m') (p : Ptr)
    (hp : disjointBuffers N p nxt) : rowAt m' p N = rowAt m p N := by
  refine forLoop_preserves (N : Int) (nextStateBody N rule cur nxt)
    (fun m1 => rowAt m1 p N = rowAt m p N) ?_ (N + 1) 0 m m' (le_refl _) rfl h
  intro i m1 m2 h0 hlt hinv hb
  unfold nextStateBody at hb
  obtain ⟨l, _, hb⟩ := Option.bind_eq_some.mp hb
  obtain ⟨c, _, hb⟩ := Option.bind_eq_some.mp hb
  obtain ⟨r, _, hb⟩ := Option.bind_eq_some.mp hb
  obtain ⟨v, _, hb⟩ := Option.bind_eq_some.mp hb
  rw [store_frame hb h0 hlt p hp, hinv]

theorem twoBuffers_ne {N : Nat} (hN : 1 ≤ N) {m : Mem} {c n : Option Ptr}
    (h : twoBuffers N m c n) : c ≠ n := by
  obtain ⟨cur, nxt, rfl, rfl, _, _, hdis⟩ := twoBuffers_iff.mp h
  intro heq
  cases heq
  rcases hdis with h | h | h
  · exact h rfl
  · omega
  · omega

/-! ## Claims -/

/-- C1: for every row length `N ≥ 1` and every binary row `row` of `N` cells held by the current
buffer, one advance (the next-state loop and pointer exchange of `main` in `Computer/main.c`, of
`generate` in `Arduino/src/main.cpp` and in `src/main.cpp`) completes, and the buffer that was
`next` then holds at every index `i < N` the value
`rule(row[(i-1+N) % N], row[i], row[(i+1) % N])`; the left neighbour of index `0` is index
`N-1` and the right neighbour of index `N-1` is index `0`. -/
theorem C1_advance_applies_rule_to_wrapped_neighbours (N : Nat) (hN : 1 ≤ N) (row : List Int)
    (hbin : binaryRow row) :
    (∀ (rule : Int) (s : Computer.State), Computer.wellFormed N s →
        Computer.currentRow N s = some row →
        ∃ s' new, Computer.advance N rule s = some s'
          ∧ s'.current_cell_states = s.next_cell_states
          ∧ Computer.currentRow N s' = some new ∧ new.length = N
          ∧ ∀ i, i < N → new[i]? = stateBasedOnNeighbors rule
              (row.getD (leftIndex N i) 0) (row.getD i 0) (row.getD (rightIndex N i) 0))
    ∧ (∀ s : Arduino.State, Arduino.wellFormed N s → Arduino.currentRow N s = some row →
        ∃ s' new, Arduino.generate N s = some s'
          ∧ s'.current = s.next
          ∧ Arduino.currentRow N s' = some new ∧ new.length = N
          ∧ ∀ i, i < N → new[i]? = rulesetLookup s.ruleset
              (row.getD (leftIndex N i) 0) (row.getD i 0) (row.getD (rightIndex N i) 0))
    ∧ (∀ s : Src.State, Src.wellFormed N s → Src.currentRow N s = some row →
        ∃ s' new, Src.generate N s = some s'
          ∧ s'.current = s.next
          ∧ Src.currentRow N s' = some new ∧ new.length = N
          ∧ ∀ i, i < N → new[i]? = rulesetLookup s.ruleset
              (row.getD (leftIndex N i) 0) (row.getD i 0) (row.getD (rightIndex N i) 0))
    ∧ leftIndex N 0 = N - 1 ∧ rightIndex N (N - 1) = 0 := by
  refine ⟨?_, ?_, ?_, leftIndex_zero hN, rightIndex_last hN⟩
  · intro rule s hwf hrow
    obtain ⟨s', new, hadv, hcur, _, hlen, hcells, _, _, hptr, _⟩ :=
      Computer.advance_spec N rule s row hwf hrow hbin
    have hrl : row.length = N := by
      obtain ⟨p, _, hp⟩ := Option.bind_eq_some.mp hrow
      exact rowAt_length hp
    refine ⟨s', new, hadv, hptr, hcur, hlen, fun i hi => ?_⟩
    rw [hcells i hi, cellAfter, hrl]
  · intro s hwf hrow
    obtain ⟨s', new, hgen, hcur, _, hlen, hcells, _, _, hptr, _⟩ :=
      Arduino.generate_spec N s row hwf hrow hbin
    have hrl : row.length = N := by
      obtain ⟨p, _, hp⟩ := Option.bind_eq_some.mp hrow
      exact rowAt_length hp
    refine ⟨s', new, hgen, hptr, hcur, hlen, fun i hi => ?_⟩
    rw [hcells i hi, cellAfter, hrl]
  · intro s hwf hrow
    obtain ⟨s', new, hgen, hcur, _, hlen, hcells, _, _, hptr, _⟩ :=
      Src.generate_spec_src N s row hwf hrow hbin
    have hrl : row.length = N := by
      obtain ⟨p, _, hp⟩ := Option.bind_eq_some.mp hrow
      exact rowAt_length hp
    refine ⟨s', new, hgen, hptr, hcur, hlen, fun i hi => ?_⟩
    rw [hcells i hi, cellAfter, hrl]

/-- Witness of C1 at `N = 5`, row `[0,0,1,0,0]`, rule 30, in `Computer/main.c` after its
initialisation with `ROW_LENGTH = 5`; the new row evaluates to `[0,1,1,1,0]`. -/
theorem C1_witness :
    (1 ≤ 5 ∧ binaryRow [0, 0, 1, 0, 0]
      ∧ Computer.wellFormed 5 ⟨[[0, 0, 1, 0, 0, 0, 0, 0, 0, 0]], some ⟨0, 0⟩, some ⟨0, 5⟩, none, []⟩
      ∧ Computer.currentRow 5 ⟨[[0, 0, 1, 0, 0, 0, 0, 0, 0, 0]], some ⟨0, 0⟩, some ⟨0, 5⟩, none, []⟩
          = some [0, 0, 1, 0, 0])
    ∧ (∃ s' new,
        Computer.advance 5 30 ⟨[[0, 0, 1, 0, 0, 0, 0, 0, 0, 0]], some ⟨0, 0⟩, some ⟨0, 5⟩, none, []⟩
          = some s'
        ∧ s'.current_cell_states = some ⟨0, 5⟩
        ∧ Computer.currentRow 5 s' = some new ∧ new.length = 5
        ∧ ∀ i, i < 5 → new[i]? = stateBasedOnNeighbors 30
            (([0, 0, 1, 0, 0] : List Int).getD (leftIndex 5 i) 0)
            (([0, 0, 1, 0, 0] : List Int).getD i 0)
            (([0, 0, 1, 0, 0] : List Int).getD (rightIndex 5 i) 0))
    ∧ (Computer.advance 5 30
          ⟨[[0, 0, 1, 0, 0, 0, 0, 0, 0, 0]], some ⟨0, 0⟩, some ⟨0, 5⟩, none, []⟩).bind
        (Computer.currentRow 5) = some [0, 1, 1, 1, 0] :=
  ⟨⟨by decide, by decide, by decide, by decide⟩,
   (C1_advance_applies_rule_to_wrapped_neighbours 5 (by decide) [0, 0, 1, 0, 0] (by decide)).1 30
      ⟨[[0, 0, 1, 0, 0, 0, 0, 0, 0, 0]], some ⟨0, 0⟩, some ⟨0, 5⟩, none, []⟩
      (by decide) (by decide),
   by decide⟩

/-- C2: for every rule number `n` in `[0,255]` and all bits `l`, `c`, `r`, the bitwise index
`l << 2 | c << 1 | r` is `l*4 + c*2 + r`, and `stateBasedOnNeighbors n l c r` returns
`(n >> (l*4 + c*2 + r)) & 1`, which is the binary digit `(n / 2^(l*4+c*2+r)) % 2` of `n` and
is `0` or `1`. -/
theorem C2_rule_number_bit_lookup (n l c r : Int) (_hn : 0 ≤ n ∧ n ≤ 255)
    (hl : isBit l) (hc : isBit c) (hr : isBit r) :
    neighbourhood l c r = some (l * 4 + c * 2 + r)
    ∧ stateBasedOnNeighbors n l c r = (shr n (l * 4 + c * 2 + r)).map (fun x => bitAnd x 1)
    ∧ stateBasedOnNeighbors n l c r = some (n / 2 ^ (l * 4 + c * 2 + r).toNat % 2)
    ∧ ∃ v, stateBasedOnNeighbors n l c r = some v ∧ isBit v := by
  have hrange := bits_code_range hl hc hr
  have h32 : 0 ≤ l * 4 + c * 2 + r ∧ l * 4 + c * 2 + r < 32 := ⟨hrange.1, by omega⟩
  have hval := stateBasedOnNeighbors_bits n hl hc hr
  refine ⟨neighbourhood_bits hl hc hr, ?_, ?_, _, hval, emod_two_isBit _⟩
  · rw [hval, shr, if_pos h32, Option.map_some', bitAnd_one]
  · rw [hval]
    congr 2
    have := Int.shiftRight_eq_div_pow n (l * 4 + c * 2 + r).toNat
    rw [show Int.shiftRight n (l * 4 + c * 2 + r).toNat = n >>> (l * 4 + c * 2 + r).toNat from rfl,
      this]
    norm_cast

/-- Witness of C2 at rule 30 and the neighbourhood `(0, 1, 0)`. -/
theorem C2_witness :
    ((0 : Int) ≤ 30 ∧ (30 : Int) ≤ 255) ∧ isBit 0 ∧ isBit 1
    ∧ (neighbourhood 0 1 0 = some (0 * 4 + 1 * 2 + 0)
      ∧ stateBasedOnNeighbors 30 0 1 0 = (shr 30 (0 * 4 + 1 * 2 + 0)).map (fun x => bitAnd x 1)
      ∧ stateBasedOnNeighbors 30 0 1 0 = some (30 / 2 ^ ((0 : Int) * 4 + 1 * 2 + 0).toNat % 2)
      ∧ ∃ v, stateBasedOnNeighbors 30 0 1 0 = some v ∧ isBit v) :=
  ⟨by decide, by decide, by decide,
   C2_rule_number_bit_lookup 30 0 1 0 (by decide) (by decide) (by decide) (by decide)⟩

theorem table_eq_rule_30 {l c r : Int} (hl : isBit l) (hc : isBit c) (hr : isBit r) :
    rulesetLookup Arduino.ruleset l c r = stateBasedOnNeighbors Computer.CURRENT_RULE l c r := by
  rcases hl with rfl | rfl <;> rcases hc with rfl | rfl <;> rcases hr with rfl | rfl <;> decide

theorem rows_eq_of_cells {N : Nat} {a b : List Int} {f : Nat → Option Int}
    (ha : a.length = N) (hb : b.length = N)
    (hac : ∀ k, k < N → a[k]? = f k) (hbc : ∀ k, k < N → b[k]? = f k) : a = b := by
  apply List.ext_getElem?
  intro k
  by_cases hk : k < N
  · rw [hac k hk, hbc k hk]
  · rw [List.getElem?_eq_none (by omega), List.getElem?_eq_none (by omega)]

/-- C3: the explicit table `ruleset = {0,1,1,1,1,0,0,0}` of the two Arduino variants and the rule
number `CURRENT_RULE = 30` of `Computer/main.c` encode the same rule: for all bits `l`, `c`, `r`
the lookup `ruleset[(l << 2) | (c << 1) | r]` equals `stateBasedOnNeighbors(30, l, c, r)`,
`ruleset[b] = (30 >> b) & 1` for every `b` in `0..7`, and consequently one advance of
`Computer/main.c` and one `generate()` started on the same binary row produce the same row. -/
theorem C3_table_and_rule_number_agree (l c r : Int)
    (hl : isBit l) (hc : isBit c) (hr : isBit r) :
    rulesetLookup Arduino.ruleset l c r = stateBasedOnNeighbors Computer.CURRENT_RULE l c r
    ∧ rulesetLookup Src.ruleset l c r = stateBasedOnNeighbors Computer.CURRENT_RULE l c r
    ∧ (∀ b : Nat, b < 8 →
        Arduino.ruleset[b]? = (shr Computer.CURRENT_RULE b).map (fun x => bitAnd x 1)
        ∧ Src.ruleset[b]? = (shr Computer.CURRENT_RULE b).map (fun x => bitAnd x 1))
    ∧ (∀ (N : Nat) (row : List Int) (sc : Computer.State) (sa : Arduino.State),
        binaryRow row → Computer.wellFormed N sc → Arduino.wellFormed N sa →
        sa.ruleset = Arduino.ruleset →
        Computer.currentRow N sc = some row → Arduino.currentRow N sa = some row →
        ∃ sc' sa' new, Computer.advance N Computer.CURRENT_RULE sc = some sc'
          ∧ Arduino.generate N sa = some sa'
          ∧ Computer.currentRow N sc' = some new ∧ Arduino.currentRow N sa' = some new) := by
  refine ⟨table_eq_rule_30 hl hc hr, table_eq_rule_30 hl hc hr, by decide, ?_⟩
  intro N row sc sa hbin hwc hwa hrs hrc hra
  obtain ⟨sc', new, hadv, hcur, _, hlen, hcells, _⟩ :=
    Computer.advance_spec N Computer.CURRENT_RULE sc row hwc hrc hbin
  obtain ⟨sa', new', hgen, hcur', _, hlen', hcells', _⟩ :=
    Arduino.generate_spec N sa row hwa hra hbin
  have heq : new' = new := by
    refine rows_eq_of_cells hlen' hlen (fun k hk => ?_) hcells
    rw [hcells' k hk, hrs]
    exact table_eq_rule_30 (getD_isBit hbin _) (getD_isBit hbin _) (getD_isBit hbin _)
  exact ⟨sc', sa', new, hadv, hgen, hcur, heq ▸ hcur'⟩

/-- Witness of C3 at the neighbourhood `(1, 0, 0)`, where both encodings give `1`. -/
theorem C3_witness :
    (isBit 1 ∧ isBit 0)
    ∧ rulesetLookup Arduino.ruleset 1 0 0 = stateBasedOnNeighbors Computer.CURRENT_RULE 1 0 0
    ∧ rulesetLookup Arduino.ruleset 1 0 0 = some 1 :=
  ⟨by decide,
   (C3_table_and_rule_number_agree 1 0 0 (by decide) (by decide) (by decide)).1,
   by decide⟩

/-- C4: for every row length `N ≥ 1` and binary row `row`, two states of a program whose current
buffers hold `row` (whatever their `next` buffers hold) have the same current row after one
advance; and after any number `j ≤ N` of iterations of the next-state loop the buffer the loop
reads from still holds `row`, so that no read of the step sees a value the step has written. -/
theorem C4_advance_depends_on_pre_advance_row_only (N : Nat) (_hN : 1 ≤ N) (row : List Int)
    (hbin : binaryRow row) :
    (∀ (rule : Int) (s1 s2 : Computer.State),
        Computer.wellFormed N s1 → Computer.wellFormed N s2 →
        Computer.currentRow N s1 = some row → Computer.currentRow N s2 = some row →
        ∃ t1 t2 new, Computer.advance N rule s1 = some t1 ∧ Computer.advance N rule s2 = some t2
          ∧ Computer.currentRow N t1 = some new ∧ Computer.currentRow N t2 = some new)
    ∧ (∀ s1 s2 : Arduino.State, Arduino.wellFormed N s1 → Arduino.wellFormed N s2 →
        s1.ruleset = s2.ruleset →
        Arduino.currentRow N s1 = some row → Arduino.currentRow N s2 = some row →
        ∃ t1 t2 new, Arduino.generate N s1 = some t1 ∧ Arduino.generate N s2 = some t2
          ∧ Arduino.currentRow N t1 = some new ∧ Arduino.currentRow N t2 = some new)
    ∧ (∀ s1 s2 : Src.State, Src.wellFormed N s1 → Src.wellFormed N s2 →
        s1.ruleset = s2.ruleset →
        Src.currentRow N s1 = some row → Src.currentRow N s2 = some row →
        ∃ t1 t2 new, Src.generate N s1 = some t1 ∧ Src.generate N s2 = some t2
          ∧ Src.currentRow N t1 = some new ∧ Src.currentRow N t2 = some new)
    ∧ (∀ (m : Mem) (cur nxt : Ptr), rowAt m cur N = some row → (rowAt m nxt N).isSome = true →
        disjointBuffers N cur nxt → ∀ j, j ≤ N →
        (∀ rule : Int, ∃ mj,
            forUpTo j (nextStateBody N (stateBasedOnNeighbors rule) cur nxt) m = some mj
            ∧ rowAt mj cur N = some row)
        ∧ (∀ ruleset : List Int, ruleset.length = 8 → ∃ mj,
            forUpTo j (nextStateBody N (rulesetLookup ruleset) cur nxt) m = some mj
            ∧ rowAt mj cur N = some row)) := by
  refine ⟨?_, ?_, ?_, ?_⟩
  · intro rule s1 s2 hw1 hw2 hr1 hr2
    obtain ⟨t1, new1, ha1, hc1, _, hl1, hcells1, _⟩ :=
      Computer.advance_spec N rule s1 row hw1 hr1 hbin
    obtain ⟨t2, new2, ha2, hc2, _, hl2, hcells2, _⟩ :=
      Computer.advance_spec N rule s2 row hw2 hr2 hbin
    have heq : new2 = new1 := rows_eq_of_cells hl2 hl1 hcells2 hcells1
    exact ⟨t1, t2, new1, ha1, ha2, hc1, heq ▸ hc2⟩
  · intro s1 s2 hw1 hw2 hrs hr1 hr2
    obtain ⟨t1, new1, ha1, hc1, _, hl1, hcells1, _⟩ :=
      Arduino.generate_spec N s1 row hw1 hr1 hbin
    obtain ⟨t2, new2, ha2, hc2, _, hl2, hcells2, _⟩ :=
      Arduino.generate_spec N s2 row hw2 hr2 hbin
    have heq : new2 = new1 :=
      rows_eq_of_cells hl2 hl1 (fun k hk => by rw [hcells2 k hk, ← hrs]) hcells1
    exact ⟨t1, t2, new1, ha1, ha2, hc1, heq ▸ hc2⟩
  · intro s1 s2 hw1 hw2 hrs hr1 hr2
    obtain ⟨t1, new1, ha1, hc1, _, hl1, hcells1, _⟩ :=
      Src.generate_spec_src N s1 row hw1 hr1 hbin
    obtain ⟨t2, new2, ha2, hc2, _, hl2, hcells2, _⟩ :=
      Src.generate_spec_src N s2 row hw2 hr2 hbin
    have heq : new2 = new1 :=
      rows_eq_of_cells hl2 hl1 (fun k hk => by rw [hcells2 k hk, ← hrs]) hcells1
    exact ⟨t1, t2, new1, ha1, ha2, hc1, heq ▸ hc2⟩
  · intro m cur nxt hcur hnxt hdis j hj
    refine ⟨fun rule => ?_, fun ruleset h8 => ?_⟩
    · obtain ⟨mj, _, hrun, hc, _⟩ :=
        nextState_firstIterations N (stateBasedOnNeighbors rule) cur nxt m row hcur hnxt hdis
          (fun i _ => by
            obtain ⟨v, hv, _⟩ := cellAfter_number rule hbin i
            simp [hv]) j hj
      exact ⟨mj, hrun, hc⟩
    · obtain ⟨mj, _, hrun, hc, _⟩ :=
        nextState_firstIterations N (rulesetLookup ruleset) cur nxt m row hcur hnxt hdis
          (fun i _ => by
            obtain ⟨v, hv, _⟩ := cellAfter_table h8 hbin i
            simp [hv]) j hj
      exact ⟨mj, hrun, hc⟩

/-- Witness of C4 at `N = 3`, row `[1,0,0]`, rule 30: two states of `Computer/main.c` whose
`next` buffers hold `[0,0,0]` and `[1,1,1]` both advance to the row `[1,1,1]`, while the same loop
run with `next` aliased to `current` (in-place update) yields `[1,1,0]`. -/
theorem C4_witness :
    (1 ≤ 3 ∧ binaryRow [1, 0, 0])
    ∧ (∃ t1 t2 new,
        Computer.advance 3 30 ⟨[[1, 0, 0, 0, 0, 0]], some ⟨0, 0⟩, some ⟨0, 3⟩, none, []⟩ = some t1
        ∧ Computer.advance 3 30 ⟨[[1, 0, 0, 1, 1, 1]], some ⟨0, 0⟩, some ⟨0, 3⟩, none, []⟩
            = some t2
        ∧ Computer.currentRow 3 t1 = some new ∧ Computer.currentRow 3 t2 = some new)
    ∧ (Computer.advance 3 30 ⟨[[1, 0, 0, 1, 1, 1]], some ⟨0, 0⟩, some ⟨0, 3⟩, none, []⟩).bind
        (Computer.currentRow 3) = some [1, 1, 1]
    ∧ nextStateLoop 3 (stateBasedOnNeighbors 30) ⟨0, 0⟩ ⟨0, 0⟩ [[1, 0, 0]] = some [[1, 1, 0]] :=
  ⟨by decide,
   (C4_advance_depends_on_pre_advance_row_only 3 (by decide) [1, 0, 0] (by decide)).1 30
      ⟨[[1, 0, 0, 0, 0, 0]], some ⟨0, 0⟩, some ⟨0, 3⟩, none, []⟩
      ⟨[[1, 0, 0, 1, 1, 1]], some ⟨0, 0⟩, some ⟨0, 3⟩, none, []⟩
      (by decide) (by decide) (by decide) (by decide),
   by decide, by decide⟩

theorem binaryRow_of_subset {new table : List Int} (ht : binaryRow table)
    (h : ∀ x ∈ new, x ∈ table) : binaryRow new :=
  fun x hx => ht x (h x hx)

theorem ruleset_binary : binaryRow Arduino.ruleset := by decide

/-- C5: if every cell of the current row is `0` or `1` before an advance, every cell of the
current row after the advance is `0` or `1` (rule-number step of `Computer/main.c` for any rule
number; table step of `generate()` for any table of eight binary entries); hence for every
`k` the row reached by `k` advances from the single-seed initial state of `Computer/main.c`
and of `Arduino/src/main.cpp` exists and is binary. -/
theorem C5_rows_stay_binary (N : Nat) (hN : 1 ≤ N) :
    (∀ (rule : Int) (s : Computer.State) (row : List Int), Computer.wellFormed N s →
        Computer.currentRow N s = some row → binaryRow row →
        ∃ s' new, Computer.advance N rule s = some s' ∧ Computer.currentRow N s' = some new
          ∧ binaryRow new)
    ∧ (∀ (s : Arduino.State) (row : List Int), Arduino.wellFormed N s → binaryRow s.ruleset →
        Arduino.currentRow N s = some row → binaryRow row →
        ∃ s' new, Arduino.generate N s = some s' ∧ Arduino.currentRow N s' = some new
          ∧ binaryRow new)
    ∧ (∀ (s : Src.State) (row : List Int), Src.wellFormed N s → binaryRow s.ruleset →
        Src.currentRow N s = some row → binaryRow row →
        ∃ s' new, Src.generate N s = some s' ∧ Src.currentRow N s' = some new
          ∧ binaryRow new)
    ∧ (∀ (rule : Int) (k : Nat), ∃ s0 sk rowk,
        Computer.init N (Computer.start N) = some s0
        ∧ Computer.currentRow N s0 = some (seedRow N)
        ∧ iterate (Computer.advance N rule) k s0 = some sk
        ∧ Computer.currentRow N sk = some rowk ∧ binaryRow rowk)
    ∧ (∀ k : Nat, ∃ s0 sk rowk,
        Arduino.setup N (Arduino.start N) = some s0
        ∧ Arduino.currentRow N s0 = some (seedRow N)
        ∧ iterate (Arduino.generate N) k s0 = some sk
        ∧ Arduino.currentRow N sk = some rowk ∧ binaryRow rowk) := by
  refine ⟨?_, ?_, ?_, ?_, ?_⟩
  · intro rule s row hwf hrow hbin
    obtain ⟨s', new, hadv, hcur, _, _, _, hb, _⟩ := Computer.advance_spec N rule s row hwf hrow hbin
    exact ⟨s', new, hadv, hcur, hb⟩
  · intro s row hwf hrs hrow hbin
    obtain ⟨s', new, hgen, hcur, _, _, _, hsub, _⟩ := Arduino.generate_spec N s row hwf hrow hbin
    exact ⟨s', new, hgen, hcur, binaryRow_of_subset hrs hsub⟩
  · intro s row hwf hrs hrow hbin
    obtain ⟨s', new, hgen, hcur, _, _, _, hsub, _⟩ := Src.generate_spec_src N s row hwf hrow hbin
    exact ⟨s', new, hgen, hcur, binaryRow_of_subset hrs hsub⟩
  · intro rule k
    obtain ⟨s0, hinit, hwf0, hrow0, _⟩ := Computer.init_spec N hN
    obtain ⟨sk, hk, _, rowk, hrk, hbk⟩ := iterate_inv (Computer.advance N rule)
      (fun _ s => Computer.wellFormed N s
        ∧ ∃ row, Computer.currentRow N s = some row ∧ binaryRow row)
      (by
        intro _ s ⟨hwf, row, hrow, hbin⟩
        obtain ⟨s', new, hadv, hcur, _, _, _, hb, hwf', _⟩ :=
          Computer.advance_spec N rule s row hwf hrow hbin
        exact ⟨s', hadv, hwf', new, hcur, hb⟩)
      s0 ⟨hwf0, seedRow N, hrow0, seedRow_binary N⟩ k
    exact ⟨s0, sk, rowk, hinit, hrow0, hk, hrk, hbk⟩
  · intro k
    obtain ⟨s0, hsetup, hwf0, hrow0, _, _, _, _, hrs0⟩ := Arduino.setup_spec N hN
    obtain ⟨sk, hk, _, _, rowk, hrk, hbk⟩ := iterate_inv (Arduino.generate N)
      (fun _ s => Arduino.wellFormed N s ∧ s.ruleset = Arduino.ruleset
        ∧ ∃ row, Arduino.currentRow N s = some row ∧ binaryRow row)
      (by
        intro _ s ⟨hwf, hrs, row, hrow, hbin⟩
        obtain ⟨s', new, hgen, hcur, _, _, _, hsub, hwf', _, _, _, _, hrs'⟩ :=
          Arduino.generate_spec N s row hwf hrow hbin
        exact ⟨s', hgen, hwf', hrs'.trans hrs, new, hcur,
          binaryRow_of_subset (hrs ▸ ruleset_binary) hsub⟩)
      s0 ⟨hwf0, hrs0, seedRow N, hrow0, seedRow_binary N⟩ k
    exact ⟨s0, sk, rowk, hsetup, hrow0, hk, hrk, hbk⟩

/-- Witness of C5 at `N = 5`: the row reached after three advances of rule 30 from the
single-seed state of `Computer/main.c` exists and is binary. -/
theorem C5_witness :
    1 ≤ 5
    ∧ ∃ s0 sk rowk,
        Computer.init 5 (Computer.start 5) = some s0
        ∧ Computer.currentRow 5 s0 = some (seedRow 5)
        ∧ iterate (Computer.advance 5 30) 3 s0 = some sk
        ∧ Computer.currentRow 5 sk = some rowk ∧ binaryRow rowk :=
  ⟨by decide, (C5_rows_stay_binary 5 (by decide)).2.2.2.1 30 3⟩

set_option maxRecDepth 100000 in
/-- C6 as stated fails: in the scenario of `Computer/main.c` (row length 80, rule 30, single
live cell at index 40) the row after one advance has cell 41 alive, so it is not the case that
exactly the cells 39 and 40 are alive. -/
theorem C6_counterexample :
    ∃ row1,
      ((Computer.init Computer.ROW_LENGTH (Computer.start Computer.ROW_LENGTH)).bind
          (Computer.advance Computer.ROW_LENGTH Computer.CURRENT_RULE)).bind
        (Computer.currentRow Computer.ROW_LENGTH) = some row1
      ∧ row1.getD 41 0 = 1
      ∧ ¬ (∀ i, i < 80 → (row1.getD i 0 ≠ 0 ↔ i = 39 ∨ i = 40)) :=
  ⟨List.replicate 39 0 ++ [1, 1, 1] ++ List.replicate 38 0, by decide, by decide, by decide⟩

set_option maxRecDepth 100000 in
/-- C6 amended: in the scenario of `Computer/main.c` (row length 80, rule 30, single live cell
at index 40) the row after exactly one advance has exactly three live cells, located at
indices 39, 40 and 41, and every other cell is dead. -/
theorem C6_row_one_has_three_live_cells :
    ((Computer.init Computer.ROW_LENGTH (Computer.start Computer.ROW_LENGTH)).bind
        (Computer.advance Computer.ROW_LENGTH Computer.CURRENT_RULE)).bind
      (Computer.currentRow Computer.ROW_LENGTH)
      = some (List.replicate 39 0 ++ [1, 1, 1] ++ List.replicate 38 0)
    ∧ (List.replicate 39 (0 : Int) ++ [1, 1, 1] ++ List.replicate 38 0).length = 80
    ∧ ((List.replicate 39 (0 : Int) ++ [1, 1, 1] ++ List.replicate 38 0).filter
        (fun x => x ≠ 0)).length = 3
    ∧ ∀ i, i < 80 →
        ((List.replicate 39 (0 : Int) ++ [1, 1, 1] ++ List.replicate 38 0).getD i 0
          = if i = 39 ∨ i = 40 ∨ i = 41 then 1 else 0) :=
  ⟨by decide, by decide, by decide, by decide⟩

theorem cellAfter_total {R : Int → Int → Int → Option Int}
    (hR : ∀ l c r, isBit l → isBit c → isBit r → (R l c r).isSome = true)
    {row : List Int} (hbin : binaryRow row) (i : Nat) : (cellAfter R row i).isSome = true :=
  hR _ _ _ (getD_isBit hbin _) (getD_isBit hbin _) (getD_isBit hbin _)

/-- C7: for every row length `N ≥ 1`, index `i < N` and binary row, the left operand
`(i - 1) + N` of `%` is not negative, both neighbour indices lie in `0..N-1`, the neighbourhood
code of any three bits lies in `0..7`, so the shift by it and the read of an eight-entry
`ruleset` at it are defined; iteration `i` of the next-state loop, run in the memory left by
the iterations before it, and the whole loop return a result, and so do the advance of
`Computer/main.c` and `generate()` of both Arduino variants on every well-formed state. -/
theorem C7_advance_is_total (N : Nat) (_hN : 1 ≤ N) (i : Nat) (hi : i < N) (row : List Int)
    (hbin : binaryRow row) :
    (0 ≤ ((i : Int) - 1) + (N : Int)
      ∧ 0 ≤ Int.tmod (((i : Int) - 1) + (N : Int)) N
      ∧ Int.tmod (((i : Int) - 1) + (N : Int)) N < N
      ∧ 0 ≤ Int.tmod ((i : Int) + 1) N ∧ Int.tmod ((i : Int) + 1) N < N)
    ∧ (∀ l c r : Int, isBit l → isBit c → isBit r →
        ∃ code, neighbourhood l c r = some code ∧ 0 ≤ code ∧ code ≤ 7
          ∧ (∀ rule : Int, (shr rule code).isSome = true
              ∧ (stateBasedOnNeighbors rule l c r).isSome = true)
          ∧ (∀ ruleset : List Int, ruleset.length = 8 →
              (readArray ruleset code).isSome = true
              ∧ (rulesetLookup ruleset l c r).isSome = true))
    ∧ (∀ (R : Int → Int → Int → Option Int) (m : Mem) (cur nxt : Ptr),
        (∀ l c r, isBit l → isBit c → isBit r → (R l c r).isSome = true) →
        rowAt m cur N = some row → (rowAt m nxt N).isSome = true → disjointBuffers N cur nxt →
        (∃ mi, forUpTo i (nextStateBody N R cur nxt) m = some mi
          ∧ (nextStateBody N R cur nxt i mi).isSome = true)
        ∧ (nextStateLoop N R cur nxt m).isSome = true)
    ∧ (∀ (rule : Int) (s : Computer.State), Computer.wellFormed N s →
        Computer.currentRow N s = some row → (Computer.advance N rule s).isSome = true)
    ∧ (∀ s : Arduino.State, Arduino.wellFormed N s →
        Arduino.currentRow N s = some row → (Arduino.generate N s).isSome = true)
    ∧ (∀ s : Src.State, Src.wellFormed N s →
        Src.currentRow N s = some row → (Src.generate N s).isSome = true) := by
  have h0 : (0 : Int) ≤ (i : Int) := Int.ofNat_nonneg i
  have hlt : (i : Int) < (N : Int) := by omega
  obtain ⟨hl0, hl1, hl2, _⟩ := left_index_tmod h0 hlt
  obtain ⟨hr1, hr2, _⟩ := right_index_tmod h0 hlt
  refine ⟨⟨hl0, hl1, hl2, hr1, hr2⟩, ?_, ?_, ?_, ?_, ?_⟩
  · intro l c r hl hc hr
    have hrange := bits_code_range hl hc hr
    refine ⟨l * 4 + c * 2 + r, neighbourhood_bits hl hc hr, hrange.1, hrange.2, ?_, ?_⟩
    · intro rule
      have h32 : 0 ≤ l * 4 + c * 2 + r ∧ l * 4 + c * 2 + r < 32 := ⟨hrange.1, by omega⟩
      exact ⟨by simp [shr, h32], by simp [stateBasedOnNeighbors_bits rule hl hc hr]⟩
    · intro ruleset h8
      obtain ⟨v, hv, _, hidx⟩ := rulesetLookup_bits ruleset h8 hl hc hr
      exact ⟨by simp [readArray, hrange.1, hidx], by simp [hv]⟩
  · intro R m cur nxt hR hcur hnxt hdis
    have hrule : ∀ k, k < N → (cellAfter R row k).isSome = true :=
      fun k _ => cellAfter_total hR hbin k
    refine ⟨?_, ?_⟩
    · obtain ⟨mi, new, hrun, hc, hn, _⟩ :=
        nextState_firstIterations N R cur nxt m row hcur hnxt hdis hrule i (by omega)
      obtain ⟨v, hv⟩ := Option.isSome_iff_exists.mp (hrule i hi)
      obtain ⟨m', hb, _⟩ := nextStateBody_step N R cur nxt row new mi (i : Int) h0 hlt hc hn hdis
        v (by simpa using hv)
      exact ⟨mi, hrun, by simp [hb]⟩
    · obtain ⟨m', _, hrun, _⟩ := nextStateLoop_spec N R cur nxt m row hcur hnxt hdis hrule
      simp [hrun]
  · intro rule s hwf hrow
    obtain ⟨s', _, hadv, _⟩ := Computer.advance_spec N rule s row hwf hrow hbin
    simp [hadv]
  · intro s hwf hrow
    obtain ⟨s', _, hgen, _⟩ := Arduino.generate_spec N s row hwf hrow hbin
    simp [hgen]
  · intro s hwf hrow
    obtain ⟨s', _, hgen, _⟩ := Src.generate_spec_src N s row hwf hrow hbin
    simp [hgen]

/-- Witness of C7 at `N = 5`, index `0`, row `[0,0,1,0,0]`: the advance of `Computer/main.c`
with rule 30 returns a result. -/
theorem C7_witness :
    (1 ≤ 5 ∧ 0 < 5 ∧ binaryRow [0, 0, 1, 0, 0])
    ∧ (Computer.advance 5 30
        ⟨[[0, 0, 1, 0, 0, 0, 0, 0, 0, 0]], some ⟨0, 0⟩, some ⟨0, 5⟩, none, []⟩).isSome = true :=
  ⟨by decide,
   (C7_advance_is_total 5 (by decide) 0 (by decide) [0, 0, 1, 0, 0] (by decide)).2.2.2.1 30
      ⟨[[0, 0, 1, 0, 0, 0, 0, 0, 0, 0]], some ⟨0, 0⟩, some ⟨0, 5⟩, none, []⟩
      (by decide) (by decide)⟩

theorem wrap_of_range {x : Int} (h0 : INT_MIN ≤ x) (h1 : x ≤ INT_MAX) : wrap x = x := by
  unfold INT_MIN at h0
  unfold INT_MAX at h1
  unfold wrap toSigned toUnsigned
  split <;> omega

namespace Arduino

theorem generate_generation {N : Nat} {s s' : State} (h : generate N s = some s') :
    s'.generation = wrap (s.generation + 1) := by
  unfold generate at h
  obtain ⟨_, _, h⟩ := Option.bind_eq_some.mp h
  obtain ⟨_, _, h⟩ := Option.bind_eq_some.mp h
  obtain ⟨_, _, h⟩ := Option.bind_eq_some.mp h
  obtain ⟨_, _, h⟩ := Option.bind_eq_some.mp h
  obtain ⟨_, _, h⟩ := Option.bind_eq_some.mp h
  cases h
  rfl

theorem generate_ignores_generation (N : Nat) (s : State) (g : Int) :
    generate N { s with generation := g }
      = (generate N s).map (fun s' => { s' with generation := wrap (g + 1) }) := by
  unfold generate
  cases s.current with
  | none => rfl
  | some cur =>
    simp only [Option.some_bind]
    cases ledLoop N s.mem cur s.leds with
    | none => rfl
    | some leds =>
      simp only [Option.some_bind]
      cases serialDump N s.mem cur s.serial with
      | none => rfl
      | some out =>
        simp only [Option.some_bind]
        cases s.next with
        | none => rfl
        | some nxt =>
          simp only [Option.some_bind]
          cases nextStateLoop N (rulesetLookup s.ruleset) cur nxt s.mem with
          | none => rfl
          | some m => rfl

end Arduino

/-- C8: in `Arduino/src/main.cpp`, `generation` is `0` after `setup()`; every call of
`generate()` on a well-formed state whose counter is below `INT_MAX` returns and increases
`generation` by exactly `1`; after `k` calls of `generate()` following `setup()`, for every
`k` in the range of `int`, `generation == k`; and running `generate()` on a state that differs
only in `generation` gives the same state up to `generation`, so the counter does not influence
the rows. -/
theorem C8_generation_counts_calls (N : Nat) (hN : 1 ≤ N) (k : Nat) (hk : (k : Int) ≤ INT_MAX) :
    (∃ s0 sk, Arduino.setup N (Arduino.start N) = some s0 ∧ s0.generation = 0
      ∧ iterate (Arduino.generate N) k s0 = some sk ∧ sk.generation = (k : Int))
    ∧ (∀ (s : Arduino.State) (row : List Int), Arduino.wellFormed N s →
        Arduino.currentRow N s = some row → binaryRow row →
        INT_MIN ≤ s.generation → s.generation < INT_MAX →
        ∃ s', Arduino.generate N s = some s' ∧ s'.generation = s.generation + 1)
    ∧ (∀ (s : Arduino.State) (g : Int),
        Arduino.generate N { s with generation := g }
          = (Arduino.generate N s).map (fun s' => { s' with generation := wrap (g + 1) })) := by
  refine ⟨?_, ?_, Arduino.generate_ignores_generation N⟩
  · obtain ⟨s0, hsetup, hwf0, hrow0, _, _, _, hg0, hrs0⟩ := Arduino.setup_spec N hN
    obtain ⟨sk, hrun, _, _, _, hgen⟩ := iterate_inv (Arduino.generate N)
      (fun j s => Arduino.wellFormed N s ∧ s.ruleset = Arduino.ruleset
        ∧ (∃ row, Arduino.currentRow N s = some row ∧ binaryRow row)
        ∧ ((j : Int) ≤ INT_MAX → s.generation = (j : Int)))
      (by
        intro j s ⟨hwf, hrs, ⟨row, hrow, hbin⟩, hg⟩
        obtain ⟨s', new, hgen, hcur, _, _, _, hsub, hwf', _, _, _, hg', hrs'⟩ :=
          Arduino.generate_spec N s row hwf hrow hbin
        refine ⟨s', hgen, hwf', hrs'.trans hrs,
          ⟨new, hcur, binaryRow_of_subset (hrs ▸ ruleset_binary) hsub⟩, ?_⟩
        intro hj
        have hjle : (j : Int) ≤ INT_MAX := by push_cast at hj; omega
        rw [hg', hg hjle]
        push_cast at hj ⊢
        exact wrap_of_range (by unfold INT_MIN; omega) hj)
      s0 ⟨hwf0, hrs0, ⟨seedRow N, hrow0, seedRow_binary N⟩, fun _ => by simpa using hg0⟩ k
    exact ⟨s0, sk, hsetup, hg0, hrun, hgen hk⟩
  · intro s row hwf hrow hbin hmin hmax
    obtain ⟨s', _, hgen, _, _, _, _, _, _, _, _, _, hg', _⟩ :=
      Arduino.generate_spec N s row hwf hrow hbin
    exact ⟨s', hgen, by rw [hg']; exact wrap_of_range (by omega) (by omega)⟩

/-- Witness of C8 at `N = 5` and three calls of `generate()`. -/
theorem C8_witness :
    (1 ≤ 5 ∧ ((3 : Nat) : Int) ≤ INT_MAX)
    ∧ ∃ s0 sk, Arduino.setup 5 (Arduino.start 5) = some s0 ∧ s0.generation = 0
        ∧ iterate (Arduino.generate 5) 3 s0 = some sk ∧ sk.generation = ((3 : Nat) : Int) :=
  ⟨by decide, (C8_generation_counts_calls 5 (by decide) 3 (by decide)).1⟩

/-- C9: immediately after initialisation (`setup()` of `Arduino/src/main.cpp` with
`ROW_LENGTH = 40`; lines 17-21 of `main` in `Computer/main.c` with `ROW_LENGTH = 80`), run from
the zero-initialised globals, the current row has `ROW_LENGTH` cells and is the single-seed row:
cell `ROW_LENGTH / 2` (20 resp. 40) is `1`, every other cell is `0`; in the Arduino variant
`generation == 0`.  The same holds for every row length `N ≥ 1`. -/
theorem C9_initial_state_is_single_seed :
    (Arduino.ROW_LENGTH = 40 ∧ Computer.ROW_LENGTH = 80)
    ∧ (∃ s row, Arduino.setup Arduino.ROW_LENGTH (Arduino.start Arduino.ROW_LENGTH) = some s
        ∧ Arduino.currentRow Arduino.ROW_LENGTH s = some row
        ∧ row.length = 40
        ∧ row = List.replicate 20 0 ++ [1] ++ List.replicate 19 0
        ∧ (∀ i, i < 40 → row.getD i 0 = if i = 20 then 1 else 0)
        ∧ s.generation = 0)
    ∧ (∃ s row, Computer.init Computer.ROW_LENGTH (Computer.start Computer.ROW_LENGTH) = some s
        ∧ Computer.currentRow Computer.ROW_LENGTH s = some row
        ∧ row.length = 80
        ∧ row = List.replicate 40 0 ++ [1] ++ List.replicate 39 0
        ∧ (∀ i, i < 80 → row.getD i 0 = if i = 40 then 1 else 0))
    ∧ (∀ N, 1 ≤ N →
        (∃ s, Arduino.setup N (Arduino.start N) = some s
          ∧ Arduino.currentRow N s = some (seedRow N) ∧ s.generation = 0)
        ∧ (∃ s, Computer.init N (Computer.start N) = some s
          ∧ Computer.currentRow N s = some (seedRow N))
        ∧ (seedRow N).length = N
        ∧ ∀ i, i < N → (seedRow N).getD i 0 = if i = N / 2 then 1 else 0) := by
  refine ⟨⟨rfl, rfl⟩, ?_, ?_, ?_⟩
  · obtain ⟨s, hs, _, hrow, _, _, _, hg, _⟩ := Arduino.setup_spec Arduino.ROW_LENGTH (by decide)
    exact ⟨s, seedRow 40, hs, hrow, by decide, by decide, by decide, hg⟩
  · obtain ⟨s, hs, _, hrow, _⟩ := Computer.init_spec Computer.ROW_LENGTH (by decide)
    exact ⟨s, seedRow 80, hs, hrow, by decide, by decide, by decide⟩
  · intro N hN
    obtain ⟨sa, hsa, _, hrowa, _, _, _, hg, _⟩ := Arduino.setup_spec N hN
    obtain ⟨sc, hsc, _, hrowc, _⟩ := Computer.init_spec N hN
    exact ⟨⟨sa, hsa, hrowa, hg⟩, ⟨sc, hsc, hrowc⟩, seedRow_length N, seedRow_getD N⟩

namespace Computer

theorem advance_exchange {N : Nat} {rule : Int} {s s' : State} (hwf : wellFormed N s)
    (h : advance N rule s = some s') :
    s'.current_cell_states = s.next_cell_states ∧ s'.next_cell_states = s.current_cell_states
      ∧ nextRow N s' = currentRow N s := by
  obtain ⟨cur, nxt, hc, hn, _, _, hdis⟩ := twoBuffers_iff.mp hwf
  unfold advance at h
  rw [hc, hn] at h
  simp only [Option.some_bind] at h
  obtain ⟨m', hloop, h⟩ := Option.bind_eq_some.mp h
  cases h
  refine ⟨hn.symm, hc.symm, ?_⟩
  simp only [nextRow, currentRow, hc, Option.some_bind]
  exact nextStateLoop_frame hloop cur hdis

end Computer

namespace Arduino

theorem generate_exchange {N : Nat} {s s' : State} (hwf : wellFormed N s)
    (h : generate N s = some s') :
    s'.current = s.next ∧ s'.next = s.current ∧ nextRow N s' = currentRow N s := by
  obtain ⟨cur, nxt, hc, hn, _, _, hdis⟩ := twoBuffers_iff.mp hwf.1
  unfold generate at h
  rw [hc, hn] at h
  simp only [Option.some_bind] at h
  obtain ⟨_, _, h⟩ := Option.bind_eq_some.mp h
  obtain ⟨_, _, h⟩ := Option.bind_eq_some.mp h
  obtain ⟨m', hloop, h⟩ := Option.bind_eq_some.mp h
  cases h
  refine ⟨hn.symm, hc.symm, ?_⟩
  simp only [nextRow, currentRow, hc, Option.some_bind]
  exact nextStateLoop_frame hloop cur hdis

end Arduino

namespace Src

theorem generate_exchange_src {N : Nat} {s s' : State} (hwf : wellFormed N s)
    (h : generate N s = some s') :
    s'.current = s.next ∧ s'.next = s.current ∧ nextRow N s' = currentRow N s := by
  obtain ⟨cur, nxt, hc, hn, _, _, hdis⟩ := twoBuffers_iff.mp hwf.1
  unfold generate at h
  rw [hc, hn] at h
  simp only [Option.some_bind] at h
  obtain ⟨_, _, h⟩ := Option.bind_eq_some.mp h
  obtain ⟨m', hloop, h⟩ := Option.bind_eq_some.mp h
  cases h
  refine ⟨hn.symm, hc.symm, ?_⟩
  simp only [nextRow, currentRow, hc, Option.some_bind]
  exact nextStateLoop_frame hloop cur hdis

end Src

/-- C10: for every row length `N ≥ 1` and every state in which `current` and `next` denote two
distinct buffers, an advance that completes leaves the cells of the pre-advance current buffer
unmodified, makes `current` the former `next` and `next` the former `current` (which still
holds the pre-advance row), and keeps the two pointers different; when the current row is
binary the advance does complete, the new `current` holds the new row, a second advance gives
each pointer its original value again, and after any number of advances the two pointers
differ.  Stated for `Computer/main.c`, `Arduino/src/main.cpp` and `src/main.cpp`. -/
theorem C10_buffer_roles_are_exchanged (N : Nat) (hN : 1 ≤ N) :
    (∀ (rule : Int) (s : Computer.State), Computer.wellFormed N s →
      (∀ s', Computer.advance N rule s = some s' →
        s'.current_cell_states = s.next_cell_states
        ∧ s'.next_cell_states = s.current_cell_states
        ∧ Computer.nextRow N s' = Computer.currentRow N s
        ∧ s'.current_cell_states ≠ s'.next_cell_states)
      ∧ (∀ row, Computer.currentRow N s = some row → binaryRow row →
        ∃ s1 s2 new, Computer.advance N rule s = some s1
          ∧ Computer.currentRow N s1 = some new
          ∧ (∀ i, i < N → new[i]? = cellAfter (stateBasedOnNeighbors rule) row i)
          ∧ Computer.nextRow N s1 = some row
          ∧ Computer.advance N rule s1 = some s2
          ∧ s2.current_cell_states = s.current_cell_states
          ∧ s2.next_cell_states = s.next_cell_states
          ∧ ∀ k, ∃ sk, iterate (Computer.advance N rule) k s = some sk
              ∧ sk.current_cell_states ≠ sk.next_cell_states))
    ∧ (∀ s : Arduino.State, Arduino.wellFormed N s →
      (∀ s', Arduino.generate N s = some s' →
        s'.current = s.next ∧ s'.next = s.current
        ∧ Arduino.nextRow N s' = Arduino.currentRow N s ∧ s'.current ≠ s'.next)
      ∧ (∀ row, Arduino.currentRow N s = some row → binaryRow row → binaryRow s.ruleset →
        ∃ s1 s2 new, Arduino.generate N s = some s1
          ∧ Arduino.currentRow N s1 = some new
          ∧ (∀ i, i < N → new[i]? = cellAfter (rulesetLookup s.ruleset) row i)
          ∧ Arduino.nextRow N s1 = some row
          ∧ Arduino.generate N s1 = some s2
          ∧ s2.current = s.current ∧ s2.next = s.next
          ∧ ∀ k, ∃ sk, iterate (Arduino.generate N) k s = some sk ∧ sk.current ≠ sk.next))
    ∧ (∀ s : Src.State, Src.wellFormed N s →
      (∀ s', Src.generate N s = some s' →
        s'.current = s.next ∧ s'.next = s.current
        ∧ Src.nextRow N s' = Src.currentRow N s ∧ s'.current ≠ s'.next)
      ∧ (∀ row, Src.currentRow N s = some row → binaryRow row → binaryRow s.ruleset →
        ∃ s1 s2 new, Src.generate N s = some s1
          ∧ Src.currentRow N s1 = some new
          ∧ (∀ i, i < N → new[i]? = cellAfter (rulesetLookup s.ruleset) row i)
          ∧ Src.nextRow N s1 = some row
          ∧ Src.generate N s1 = some s2
          ∧ s2.current = s.current ∧ s2.next = s.next
          ∧ ∀ k, ∃ sk, iterate (Src.generate N) k s = some sk ∧ sk.current ≠ sk.next)) := by
  refine ⟨?_, ?_, ?_⟩
  · intro rule s hwf
    have hne := twoBuffers_ne hN hwf
    refine ⟨?_, ?_⟩
    · intro s' h
      obtain ⟨h1, h2, h3⟩ := Computer.advance_exchange hwf h
      exact ⟨h1, h2, h3, by rw [h1, h2]; exact Ne.symm hne⟩
    · intro row hrow hbin
      obtain ⟨s1, new, ha1, hc1, hn1, _, hcells, hb1, hwf1, hp1, hq1, _⟩ :=
        Computer.advance_spec N rule s row hwf hrow hbin
      obtain ⟨s2, _, ha2, _, _, _, _, _, _, hp2, hq2, _⟩ :=
        Computer.advance_spec N rule s1 new hwf1 hc1 hb1
      refine ⟨s1, s2, new, ha1, hc1, hcells, hn1, ha2, by rw [hp2, hq1], by rw [hq2, hp1], ?_⟩
      intro k
      obtain ⟨sk, hk, hwfk, _⟩ := iterate_inv (Computer.advance N rule)
        (fun _ t => Computer.wellFormed N t
          ∧ ∃ r, Computer.currentRow N t = some r ∧ binaryRow r)
        (by
          intro _ t ⟨hwt, r, hr, hbr⟩
          obtain ⟨t', r', hat, hct, _, _, _, hbt, hwt', _⟩ :=
            Computer.advance_spec N rule t r hwt hr hbr
          exact ⟨t', hat, hwt', r', hct, hbt⟩)
        s ⟨hwf, row, hrow, hbin⟩ k
      exact ⟨sk, hk, twoBuffers_ne hN hwfk⟩
  · intro s hwf
    have hne := twoBuffers_ne hN hwf.1
    refine ⟨?_, ?_⟩
    · intro s' h
      obtain ⟨h1, h2, h3⟩ := Arduino.generate_exchange hwf h
      exact ⟨h1, h2, h3, by rw [h1, h2]; exact Ne.symm hne⟩
    · intro row hrow hbin hrs
      obtain ⟨s1, new, ha1, hc1, hn1, _, hcells, hsub1, hwf1, hp1, hq1, _, _, hrs1⟩ :=
        Arduino.generate_spec N s row hwf hrow hbin
      have hb1 : binaryRow new := binaryRow_of_subset hrs hsub1
      obtain ⟨s2, _, ha2, _, _, _, _, _, _, hp2, hq2, _⟩ :=
        Arduino.generate_spec N s1 new hwf1 hc1 hb1
      refine ⟨s1, s2, new, ha1, hc1, hcells, hn1, ha2, by rw [hp2, hq1], by rw [hq2, hp1], ?_⟩
      intro k
      obtain ⟨sk, hk, hwfk, _⟩ := iterate_inv (Arduino.generate N)
        (fun _ t => Arduino.wellFormed N t ∧ binaryRow t.ruleset
          ∧ ∃ r, Arduino.currentRow N t = some r ∧ binaryRow r)
        (by
          intro _ t ⟨hwt, hrt, r, hr, hbr⟩
          obtain ⟨t', r', hat, hct, _, _, _, hsubt, hwt', _, _, _, _, hrt'⟩ :=
            Arduino.generate_spec N t r hwt hr hbr
          exact ⟨t', hat, hwt', hrt' ▸ hrt, r', hct, binaryRow_of_subset hrt hsubt⟩)
        s ⟨hwf, hrs, row, hrow, hbin⟩ k
      exact ⟨sk, hk, twoBuffers_ne hN hwfk.1⟩
  · intro s hwf
    have hne := twoBuffers_ne hN hwf.1
    refine ⟨?_, ?_⟩
    · intro s' h
      obtain ⟨h1, h2, h3⟩ := Src.generate_exchange_src hwf h
      exact ⟨h1, h2, h3, by rw [h1, h2]; exact Ne.symm hne⟩
    · intro row hrow hbin hrs
      obtain ⟨s1, new, ha1, hc1, hn1, _, hcells, hsub1, hwf1, hp1, hq1, _, _, hrs1⟩ :=
        Src.generate_spec_src N s row hwf hrow hbin
      have hb1 : binaryRow new := binaryRow_of_subset hrs hsub1
      obtain ⟨s2, _, ha2, _, _, _, _, _, _, hp2, hq2, _⟩ :=
        Src.generate_spec_src N s1 new hwf1 hc1 hb1
      refine ⟨s1, s2, new, ha1, hc1, hcells, hn1, ha2, by rw [hp2, hq1], by rw [hq2, hp1], ?_⟩
      intro k
      obtain ⟨sk, hk, hwfk, _⟩ := iterate_inv (Src.generate N)
        (fun _ t => Src.wellFormed N t ∧ binaryRow t.ruleset
          ∧ ∃ r, Src.currentRow N t = some r ∧ binaryRow r)
        (by
          intro _ t ⟨hwt, hrt, r, hr, hbr⟩
          obtain ⟨t', r', hat, hct, _, _, _, hsubt, hwt', _, _, _, _, hrt'⟩ :=
            Src.generate_spec_src N t r hwt hr hbr
          exact ⟨t', hat, hwt', hrt' ▸ hrt, r', hct, binaryRow_of_subset hrt hsubt⟩)
        s ⟨hwf, hrs, row, hrow, hbin⟩ k
      exact ⟨sk, hk, twoBuffers_ne hN hwfk.1⟩

/-- Witness of C10 at `N = 3` in `Computer/main.c`: from the state whose buffers hold
`[1,0,0]` (current, at `DATA`) and `[0,0,0]` (next, at `DATA + 3`), one advance of rule 30 makes
`current` point to `DATA + 3` and `next` to `DATA`, which still holds `[1,0,0]`. -/
theorem C10_witness :
    (1 ≤ 3
      ∧ Computer.wellFormed 3 ⟨[[1, 0, 0, 0, 0, 0]], some ⟨0, 0⟩, some ⟨0, 3⟩, none, []⟩)
    ∧ (∀ s', Computer.advance 3 30 ⟨[[1, 0, 0, 0, 0, 0]], some ⟨0, 0⟩, some ⟨0, 3⟩, none, []⟩
          = some s' →
        s'.current_cell_states = some ⟨0, 3⟩ ∧ s'.next_cell_states = some ⟨0, 0⟩
        ∧ Computer.nextRow 3 s'
            = Computer.currentRow 3 ⟨[[1, 0, 0, 0, 0, 0]], some ⟨0, 0⟩, some ⟨0, 3⟩, none, []⟩
        ∧ s'.current_cell_states ≠ s'.next_cell_states)
    ∧ Computer.advance 3 30 ⟨[[1, 0, 0, 0, 0, 0]], some ⟨0, 0⟩, some ⟨0, 3⟩, none, []⟩
        = some ⟨[[1, 0, 0, 1, 1, 1]], some ⟨0, 3⟩, some ⟨0, 0⟩, some ⟨0, 0⟩, []⟩ :=
  ⟨by decide,
   ((C10_buffer_roles_are_exchanged 3 (by decide)).1 30
      ⟨[[1, 0, 0, 0, 0, 0]], some ⟨0, 0⟩, some ⟨0, 3⟩, none, []⟩ (by decide)).1,
   by decide⟩

/-- C11 as stated fails: `stateBasedOnNeighbors` called with the rule numbers `256` and `-1`,
both outside `[0,255]`, reports no error and returns a next-state bit. -/
theorem C11_counterexample :
    stateBasedOnNeighbors 256 0 0 0 = some 0 ∧ stateBasedOnNeighbors (-1) 1 1 1 = some 1
    ∧ (stateBasedOnNeighbors 256 0 0 0).isSome = true
    ∧ (stateBasedOnNeighbors (-1) 1 1 1).isSome = true := by
  decide

/-- C11 amended: the code has no check of the rule number; for every integer `n` with `n < 0`
or `n > 255` and all bits `l`, `c`, `r`, `stateBasedOnNeighbors(n, l, c, r)` reports no error
and returns the bit `(n >> (l*4 + c*2 + r)) & 1`, which is `0` or `1`. -/
theorem C11_rule_number_is_not_validated (n l c r : Int) (_hn : n < 0 ∨ 255 < n)
    (hl : isBit l) (hc : isBit c) (hr : isBit r) :
    ∃ v, stateBasedOnNeighbors n l c r = some v ∧ isBit v
      ∧ stateBasedOnNeighbors n l c r = (shr n (l * 4 + c * 2 + r)).map (fun x => bitAnd x 1)
      ∧ v = Int.shiftRight n (l * 4 + c * 2 + r).toNat % 2 := by
  have hrange := bits_code_range hl hc hr
  have h32 : 0 ≤ l * 4 + c * 2 + r ∧ l * 4 + c * 2 + r < 32 := ⟨hrange.1, by omega⟩
  have hval := stateBasedOnNeighbors_bits n hl hc hr
  refine ⟨_, hval, emod_two_isBit _, ?_, rfl⟩
  rw [hval, shr, if_pos h32, Option.map_some', bitAnd_one]

/-- Witness of the amended C11 at rule number `256` and the neighbourhood `(0, 0, 1)`. -/
theorem C11_witness :
    (((256 : Int) < 0 ∨ (255 : Int) < 256) ∧ isBit 0 ∧ isBit 1)
    ∧ ∃ v, stateBasedOnNeighbors 256 0 0 1 = some v ∧ isBit v
      ∧ stateBasedOnNeighbors 256 0 0 1
          = (shr 256 (0 * 4 + 0 * 2 + 1)).map (fun x => bitAnd x 1)
      ∧ v = Int.shiftRight 256 ((0 : Int) * 4 + 0 * 2 + 1).toNat % 2 :=
  ⟨by decide,
   C11_rule_number_is_not_validated 256 0 0 1 (by decide) (by decide) (by decide) (by decide)⟩

theorem leftIndex_eq {N : Nat} (hN : 1 ≤ N) (k : Nat) : leftIndex N k = (k + N - 1) % N := by
  unfold leftIndex
  have : ((k : Int) - 1 + (N : Int)) = ((k + N - 1 : Nat) : Int) := by omega
  rw [this, ← Int.natCast_mod, Int.toNat_natCast]

theorem cellAfter_80 (rule : Int) {row : List Int} (hlen : row.length = 80) (k : Nat) :
    cellAfter (stateBasedOnNeighbors rule) row k
      = stateBasedOnNeighbors rule (row.getD ((k + 79) % 80) 0) (row.getD k 0)
          (row.getD ((k + 1) % 80) 0) := by
  unfold cellAfter
  rw [hlen, leftIndex_eq (by decide), rightIndex]
  have e : k + 80 - 1 = k + 79 := by omega
  rw [e]

theorem getD_of_cell {new : List Int} {k : Nat} {v : Int} (h : new[k]? = some v) :
    new.getD k 0 = v := by
  rw [List.getD_eq_getElem?_getD, h]
  rfl

theorem triangle_step {row new : List Int} {j : Nat} (hj : j + 1 ≤ 39)
    (hlen : row.length = 80)
    (hout : ∀ i, i < 80 → (i < 40 - j ∨ 40 + j < i) → row.getD i 0 = 0)
    (hleft : row.getD (40 - j) 0 = 1) (hright : row.getD (40 + j) 0 = 1)
    (hcells : ∀ k, k < 80 → new[k]? = cellAfter (stateBasedOnNeighbors 30) row k) :
    (∀ i, i < 80 → (i < 40 - (j + 1) ∨ 40 + (j + 1) < i) → new.getD i 0 = 0)
    ∧ new.getD (40 - (j + 1)) 0 = 1 ∧ new.getD (40 + (j + 1)) 0 = 1 := by
  refine ⟨?_, ?_, ?_⟩
  · intro i hi ho
    apply getD_of_cell
    rw [hcells i hi, cellAfter_80 30 hlen,
      hout ((i + 79) % 80) (by omega) (by omega), hout i hi (by omega),
      hout ((i + 1) % 80) (by omega) (by omega)]
    decide
  · apply getD_of_cell
    have e : (40 - (j + 1) + 1) % 80 = 40 - j := by omega
    rw [hcells _ (by omega), cellAfter_80 30 hlen,
      hout ((40 - (j + 1) + 79) % 80) (by omega) (by omega),
      hout (40 - (j + 1)) (by omega) (by omega), e, hleft]
    decide
  · apply getD_of_cell
    have e : (40 + (j + 1) + 79) % 80 = 40 + j := by omega
    rw [hcells _ (by omega), cellAfter_80 30 hlen, e, hright,
      hout (40 + (j + 1)) (by omega) (by omega),
      hout ((40 + (j + 1) + 1) % 80) (by omega) (by omega)]
    decide

/-- C12: in the scenario of `Computer/main.c` (row length 80, rule 30, single seed at index
40), for every generation `t` with `0 ≤ t ≤ 39` the row after `t` advances exists, has every
cell with index outside `[40 - t, 40 + t]` dead and has both edge cells, index `40 - t` and
index `40 + t`, alive. -/
theorem C12_rule_30_triangle_edges (t : Nat) (ht : t ≤ 39) :
    ∃ s0 st row,
      Computer.init Computer.ROW_LENGTH (Computer.start Computer.ROW_LENGTH) = some s0
      ∧ iterate (Computer.advance Computer.ROW_LENGTH Computer.CURRENT_RULE) t s0 = some st
      ∧ Computer.currentRow Computer.ROW_LENGTH st = some row
      ∧ row.length = 80
      ∧ (∀ i, i < 80 → (i < 40 - t ∨ 40 + t < i) → row.getD i 0 = 0)
      ∧ row.getD (40 - t) 0 = 1 ∧ row.getD (40 + t) 0 = 1 := by
  obtain ⟨s0, hinit, hwf0, hrow0, _⟩ := Computer.init_spec Computer.ROW_LENGTH (by decide)
  obtain ⟨st, hrun, _, row, hrow, hlen, _, hP⟩ :=
    iterate_inv (Computer.advance Computer.ROW_LENGTH Computer.CURRENT_RULE)
      (fun j s => Computer.wellFormed Computer.ROW_LENGTH s
        ∧ ∃ row, Computer.currentRow Computer.ROW_LENGTH s = some row ∧ row.length = 80
          ∧ binaryRow row
          ∧ (j ≤ 39 → (∀ i, i < 80 → (i < 40 - j ∨ 40 + j < i) → row.getD i 0 = 0)
              ∧ row.getD (40 - j) 0 = 1 ∧ row.getD (40 + j) 0 = 1))
      (by
        intro j s ⟨hwf, row, hrow, hlen, hbin, hP⟩
        obtain ⟨s', new, hadv, hcur, _, hnl, hcells, hb, hwf', _⟩ :=
          Computer.advance_spec Computer.ROW_LENGTH Computer.CURRENT_RULE s row hwf hrow hbin
        refine ⟨s', hadv, hwf', new, hcur, hnl, hb, fun hj => ?_⟩
        obtain ⟨hout, hl, hr⟩ := hP (by omega)
        exact triangle_step hj hlen hout hl hr hcells)
      s0
      ⟨hwf0, seedRow 80, hrow0, by decide, seedRow_binary 80, fun _ =>
        ⟨fun i hi ho => by rw [seedRow_getD 80 i hi, if_neg (by omega)], by decide, by decide⟩⟩
      t
  obtain ⟨hout, hl, hr⟩ := hP ht
  exact ⟨s0, st, row, hinit, hrun, hrow, hlen, hout, hl, hr⟩

/-- Witness of C12 at generation `t = 2`: the row after two advances is dead outside
`[38, 42]` and alive at indices `38` and `42`. -/
theorem C12_witness :
    2 ≤ 39
    ∧ ∃ s0 st row,
      Computer.init Computer.ROW_LENGTH (Computer.start Computer.ROW_LENGTH) = some s0
      ∧ iterate (Computer.advance Computer.ROW_LENGTH Computer.CURRENT_RULE) 2 s0 = some st
      ∧ Computer.currentRow Computer.ROW_LENGTH st = some row
      ∧ row.length = 80
      ∧ (∀ i, i < 80 → (i < 40 - 2 ∨ 40 + 2 < i) → row.getD i 0 = 0)
      ∧ row.getD (40 - 2) 0 = 1 ∧ row.getD (40 + 2) 0 = 1 :=
  ⟨by decide, C12_rule_30_triangle_edges 2 (by decide)⟩

/-! ## The rendered output of `Computer/main.c` -/

theorem forLoop_const {σ : Type} (f : σ → Option σ) (bound : Int) :
    ∀ (k fuel : Nat) (i : Int) (s : σ), i + (k : Int) = bound → k < fuel →
      forLoop bound (fun _ s => f s) fuel i s = iterate f k s := by
  intro k
  induction k with
  | zero =>
    intro fuel i s hi hf
    obtain ⟨fuel', rfl⟩ : ∃ m, fuel = m + 1 := ⟨fuel - 1, by omega⟩
    have hnot : ¬ i < bound := by omega
    simp only [forLoop, if_neg hnot, iterate]
  | succ k ih =>
    intro fuel i s hi hf
    obtain ⟨fuel', rfl⟩ : ∃ m, fuel = m + 1 := ⟨fuel - 1, by omega⟩
    have hlt : i < bound := by omega
    simp only [forLoop, if_pos hlt, iterate]
    cases hfs : f s with
    | none => rfl
    | some s1 =>
      simp only [Option.some_bind]
      exact ih fuel' (i + 1) s1 (by push_cast at hi; omega) (by omega)

theorem forUpTo_const {σ : Type} (f : σ → Option σ) (n : Nat) (s : σ) :
    forUpTo n (fun _ s => f s) s = iterate f n s :=
  forLoop_const f (n : Int) n (n + 1) 0 s (by omega) (by omega)

theorem flatMap_length_uniform {α β : Type} (f : α → List β) (L : Nat) :
    ∀ rows : List α, (∀ r ∈ rows, (f r).length = L) →
      (rows.flatMap f).length = rows.length * L := by
  intro rows
  induction rows with
  | nil => intro _; simp
  | cons r rest ih =>
    intro h
    rw [List.flatMap_cons, List.length_append, h r (List.mem_cons_self _ _),
      ih (fun x hx => h x (List.mem_cons_of_mem _ hx)), List.length_cons]
    ring

theorem flatMap_getElem_uniform {α β : Type} (f : α → List β) (L : Nat) :
    ∀ (rows : List α) (t i : Nat) (r : α), (∀ x ∈ rows, (f x).length = L) →
      rows[t]? = some r → i < L → (rows.flatMap f)[L * t + i]? = (f r)[i]? := by
  intro rows
  induction rows with
  | nil => intro t i r _ ht; simp at ht
  | cons r0 rest ih =>
    intro t i r h ht hi
    have h0 : (f r0).length = L := h r0 (List.mem_cons_self _ _)
    rw [List.flatMap_cons]
    cases t with
    | zero =>
      simp only [List.getElem?_cons_zero, Option.some.injEq] at ht
      subst ht
      rw [Nat.mul_zero, Nat.zero_add, List.getElem?_append_left (by omega)]
    | succ t =>
      simp only [List.getElem?_cons_succ] at ht
      rw [List.getElem?_append_right (by rw [h0, Nat.mul_succ]; omega), h0]
      have e : L * (t + 1) + i - L = L * t + i := by rw [Nat.mul_succ]; omega
      rw [e]
      exact ih t i r (fun x hx => h x (List.mem_cons_of_mem _ hx)) ht hi

theorem renderRow_length (row : List Int) : (renderRow row).length = row.length + 1 := by
  simp [renderRow]

theorem renderRow_cell (row : List Int) {i : Nat} (hi : i < row.length) :
    (renderRow row)[i]? = some (if row.getD i 0 ≠ 0 then '#' else '.') := by
  unfold renderRow
  rw [List.getElem?_append_left (by simpa using hi), List.getElem?_map,
    List.getD_eq_getElem?_getD, List.getElem?_eq_getElem hi]
  rfl

theorem renderRow_newline (row : List Int) :
    (renderRow row)[row.length]? = some (Char.ofNat 10) := by
  unfold renderRow
  rw [List.getElem?_append_right (by simp)]
  simp

namespace Computer

theorem display_render (N : Nat) (s : State) (row : List Int) (hwf : wellFormed N s)
    (hrow : currentRow N s = some row) :
    display N s = some { s with out := s.out ++ renderRow row } := by
  obtain ⟨cur, nxt, hc, _, _, _, _⟩ := twoBuffers_iff.mp hwf
  have hr : rowAt s.mem cur N = some row := by
    simpa only [currentRow, hc, Option.some_bind] using hrow
  have hlen : row.length = N := rowAt_length hr
  obtain ⟨out, hout, hinv⟩ := forUpTo_inv N
    (fun i out => (load s.mem cur i).bind fun v => some (out ++ [if v ≠ 0 then '#' else '.']))
    (fun i out => out = s.out ++ (row.take i.toNat).map (fun v => if v ≠ 0 then '#' else '.'))
    (by
      intro i out h0 hlt hinv
      have hi : i.toNat < row.length := by omega
      refine ⟨out ++ [if row.getD i.toNat 0 ≠ 0 then '#' else '.'], ?_, ?_⟩
      · show ((load s.mem cur i).bind fun v => some (out ++ [if v ≠ 0 then '#' else '.'])) = _
        rw [load_of_rowAt hr h0 hlt]
        rfl
      · have e : (i + 1).toNat = i.toNat + 1 := by omega
        show out ++ _ = s.out ++ List.map _ (List.take (i + 1).toNat row)
        rw [hinv, e, List.take_succ, List.getElem?_eq_getElem hi, List.map_append,
          List.getD_eq_getElem?_getD, List.getElem?_eq_getElem hi]
        simp)
    s.out (by simp)
  rw [Int.toNat_natCast, List.take_of_length_le (by omega)] at hinv
  simp only [display, hc, Option.some_bind, hout, hinv, renderRow, List.append_assoc]

theorem advance_out (N : Nat) (rule : Int) (s : State) (o : List Char) :
    advance N rule { s with out := o }
      = (advance N rule s).map (fun t => { t with out := o }) := by
  unfold advance
  cases s.current_cell_states with
  | none => rfl
  | some cur =>
    simp only [Option.some_bind]
    cases s.next_cell_states with
    | none => rfl
    | some nxt =>
      simp only [Option.some_bind]
      cases nextStateLoop N (stateBasedOnNeighbors rule) cur nxt s.mem with
      | none => rfl
      | some m => rfl

end Computer

namespace Computer

theorem loopBody_lines (N : Nat) (rule : Int) (s0 : State) (row0 : List Int)
    (hwf0 : wellFormed N s0) (hrow0 : currentRow N s0 = some row0) (hbin0 : binaryRow row0) :
    ∀ n, ∃ (sn an : State) (rows : List (List Int)),
      iterate (loopBody N rule) n s0 = some sn
      ∧ iterate (advance N rule) n s0 = some an
      ∧ sn = { an with out := s0.out ++ rows.flatMap renderRow }
      ∧ rows.length = n
      ∧ (∀ t, t < n → ∃ st, iterate (advance N rule) t s0 = some st
          ∧ currentRow N st = rows[t]?)
      ∧ (∀ r ∈ rows, r.length = N)
      ∧ wellFormed N an ∧ ∃ row, currentRow N an = some row ∧ binaryRow row := by
  intro n
  induction n with
  | zero =>
    exact ⟨s0, s0, [], rfl, rfl, by simp, rfl, fun t ht => by omega, fun r hr => by simp at hr,
      hwf0, row0, hrow0, hbin0⟩
  | succ n ih =>
    obtain ⟨sn, an, rows, hsn, han, heq, hlen, hrows, hlens, hwf, row, hrow, hbin⟩ := ih
    obtain ⟨an', new, hadv, hcur, _, _, _, hb, hwf', _⟩ :=
      advance_spec N rule an row hwf hrow hbin
    have hdisp : display N sn
        = some { an with out := s0.out ++ (rows ++ [row]).flatMap renderRow } := by
      rw [display_render N sn row (by rw [heq]; exact hwf) (by rw [heq]; exact hrow), heq]
      simp [List.flatMap_append, List.append_assoc]
    have hbody : loopBody N rule sn
        = some { an' with out := s0.out ++ (rows ++ [row]).flatMap renderRow } := by
      rw [loopBody, hdisp, Option.some_bind, advance_out, hadv]
      rfl
    refine ⟨_, an', rows ++ [row], ?_, ?_, rfl, by simp [hlen], ?_, ?_, hwf', new, hcur, hb⟩
    · rw [iterate_succ, hsn, Option.some_bind, hbody]
    · rw [iterate_succ, han, Option.some_bind, hadv]
    · intro t ht
      by_cases htn : t < n
      · obtain ⟨st, h1, h2⟩ := hrows t htn
        exact ⟨st, h1, by rw [h2, List.getElem?_append_left (by omega)]⟩
      · have : t = n := by omega
        subst this
        refine ⟨an, han, ?_⟩
        rw [hrow, List.getElem?_append_right (by omega), hlen]
        simp
    · intro r hr
      rcases List.mem_append.mp hr with h | h
      · exact hlens r h
      · simp only [List.mem_singleton] at h
        subst h
        obtain ⟨p, _, hp⟩ := Option.bind_eq_some.mp hrow
        exact rowAt_length hp

end Computer

/-- C13: `Computer/main.c` returns, and its output is the concatenation of exactly 1000 lines,
line `t` (0-based) being the rendering of the row obtained by `t` advances from the single-seed
row: 80 characters, `#` at column `i` exactly when cell `i` is non-zero and `.` otherwise,
followed by a newline.  Line 0 renders the seed row, and the row produced by the 1000th advance
(the current row of the final state) is not part of the output. -/
theorem C13_output_is_thousand_rendered_rows :
    ∃ (s0 s s1000 : Computer.State) (rows : List (List Int)),
      Computer.init Computer.ROW_LENGTH (Computer.start Computer.ROW_LENGTH) = some s0
      ∧ Computer.main = some s
      ∧ rows.length = 1000
      ∧ (∀ t, t < 1000 →
          ∃ st, iterate (Computer.advance Computer.ROW_LENGTH Computer.CURRENT_RULE) t s0 = some st
            ∧ Computer.currentRow Computer.ROW_LENGTH st = rows[t]?)
      ∧ (∀ r ∈ rows, r.length = 80)
      ∧ rows[0]? = some (seedRow 80)
      ∧ s.out = rows.flatMap renderRow
      ∧ s.out.length = 1000 * 81
      ∧ (∀ t i, t < 1000 → i < 80 →
          s.out[81 * t + i]? = some (if (rows.getD t []).getD i 0 ≠ 0 then '#' else '.'))
      ∧ (∀ t, t < 1000 → s.out[81 * t + 80]? = some (Char.ofNat 10))
      ∧ iterate (Computer.advance Computer.ROW_LENGTH Computer.CURRENT_RULE) 1000 s0
          = some s1000
      ∧ s = { s1000 with out := s.out } := by
  obtain ⟨s0, hinit, hwf0, hrow0, _, _, _, hout0⟩ :=
    Computer.init_spec Computer.ROW_LENGTH (by decide)
  obtain ⟨s, s1000, rows, hs, ha, heq, hlen, hrows, hlens, _⟩ :=
    Computer.loopBody_lines Computer.ROW_LENGTH Computer.CURRENT_RULE s0 _ hwf0 hrow0
      (seedRow_binary _) 1000
  have hmain : Computer.main = some s := by
    rw [Computer.main, Computer.run, hinit, Option.some_bind, forUpTo_const, hs]
  have hout : s.out = rows.flatMap renderRow := by
    rw [heq, hout0]
    rfl
  have hl81 : ∀ r ∈ rows, (renderRow r).length = 81 := fun r hr => by
    rw [renderRow_length, hlens r hr]
    rfl
  have hget : ∀ t, t < 1000 → ∃ r, rows[t]? = some r ∧ rows.getD t [] = r ∧ r.length = 80 := by
    intro t ht
    have htl : t < rows.length := by omega
    refine ⟨rows[t], List.getElem?_eq_getElem htl, ?_, hlens _ (List.getElem_mem htl)⟩
    rw [List.getD_eq_getElem?_getD, List.getElem?_eq_getElem htl]
    rfl
  refine ⟨s0, s, s1000, rows, hinit, hmain, hlen, hrows, hlens, ?_, hout, ?_, ?_, ?_, ha, ?_⟩
  · obtain ⟨st, h1, h2⟩ := hrows 0 (by decide)
    cases h1
    rw [← h2, hrow0]
    rfl
  · rw [hout, flatMap_length_uniform renderRow 81 rows hl81, hlen]
  · intro t i ht hi
    obtain ⟨r, hr, hd, hrl⟩ := hget t ht
    rw [hout, flatMap_getElem_uniform renderRow 81 rows t i r hl81 hr (by omega), hd,
      renderRow_cell r (by omega)]
  · intro t ht
    obtain ⟨r, hr, _, hrl⟩ := hget t ht
    rw [hout, flatMap_getElem_uniform renderRow 81 rows t 80 r hl81 hr (by omega), ← hrl,
      renderRow_newline]
  · rw [heq]

theorem leftIndex_shift {N : Nat} (hN : 1 ≤ N) (k sh : Nat) :
    (leftIndex N k + sh) % N = leftIndex N ((k + sh) % N) := by
  rw [leftIndex_eq hN, leftIndex_eq hN, Nat.mod_add_mod]
  have h1 : (k + sh) % N + N - 1 = (k + sh) % N + (N - 1) := by omega
  rw [h1, Nat.mod_add_mod]
  congr 1
  omega

theorem rightIndex_shift (N k sh : Nat) :
    (rightIndex N k + sh) % N = rightIndex N ((k + sh) % N) := by
  unfold rightIndex
  rw [Nat.mod_add_mod, Nat.mod_add_mod]
  congr 1
  omega

theorem getD_rotate {row : List Int} {N : Nat} (hlen : row.length = N) (sh : Nat) {j : Nat}
    (hj : j < N) : (row.rotate sh).getD j 0 = row.getD ((j + sh) % N) 0 := by
  rw [List.getD_eq_getElem?_getD, List.getD_eq_getElem?_getD,
    List.getElem?_rotate (by omega), hlen]

theorem cellAfter_rotate (rule : Int → Int → Int → Option Int) {row : List Int} {N : Nat}
    (hN : 1 ≤ N) (hlen : row.length = N) (sh : Nat) {k : Nat} (hk : k < N) :
    cellAfter rule (row.rotate sh) k = cellAfter rule row ((k + sh) % N) := by
  unfold cellAfter
  rw [List.length_rotate, hlen, getD_rotate hlen sh (leftIndex_lt hk), getD_rotate hlen sh hk,
    getD_rotate hlen sh (rightIndex_lt hk), leftIndex_shift hN, rightIndex_shift]

theorem rotate_binary {row : List Int} (h : binaryRow row) (sh : Nat) :
    binaryRow (row.rotate sh) :=
  fun x hx => h x (List.mem_rotate.mp hx)

theorem rotate_of_cells (rule : Int → Int → Int → Option Int) {row new1 new2 : List Int}
    {N : Nat} (hN : 1 ≤ N) (hlen : row.length = N) (sh : Nat)
    (hl1 : new1.length = N) (hl2 : new2.length = N)
    (h1 : ∀ k, k < N → new1[k]? = cellAfter rule row k)
    (h2 : ∀ k, k < N → new2[k]? = cellAfter rule (row.rotate sh) k) :
    new2 = new1.rotate sh := by
  refine rows_eq_of_cells hl2 (by rw [List.length_rotate, hl1]) h2 (fun k hk => ?_)
  rw [List.getElem?_rotate (by omega), hl1, h1 _ (Nat.mod_lt _ (by omega)),
    cellAfter_rotate rule hN hlen sh hk]

/-- C14: rotation equivariance of the step: for every row length `N ≥ 1`, every rule (any rule
number in `Computer/main.c`, any eight-entry table in `generate()`), every binary row of `N`
cells and every shift `sh`, advancing a state whose current row is the row rotated cyclically
by `sh` positions gives the rotation by `sh` of the row obtained by advancing the row itself. -/
theorem C14_step_commutes_with_rotation (N : Nat) (hN : 1 ≤ N) (row : List Int)
    (hbin : binaryRow row) (sh : Nat) :
    (∀ (rule : Int) (s1 s2 : Computer.State),
        Computer.wellFormed N s1 → Computer.wellFormed N s2 →
        Computer.currentRow N s1 = some row → Computer.currentRow N s2 = some (row.rotate sh) →
        ∃ t1 t2 new, Computer.advance N rule s1 = some t1 ∧ Computer.advance N rule s2 = some t2
          ∧ Computer.currentRow N t1 = some new
          ∧ Computer.currentRow N t2 = some (new.rotate sh))
    ∧ (∀ s1 s2 : Arduino.State, Arduino.wellFormed N s1 → Arduino.wellFormed N s2 →
        s1.ruleset = s2.ruleset →
        Arduino.currentRow N s1 = some row → Arduino.currentRow N s2 = some (row.rotate sh) →
        ∃ t1 t2 new, Arduino.generate N s1 = some t1 ∧ Arduino.generate N s2 = some t2
          ∧ Arduino.currentRow N t1 = some new
          ∧ Arduino.currentRow N t2 = some (new.rotate sh))
    ∧ (∀ s1 s2 : Src.State, Src.wellFormed N s1 → Src.wellFormed N s2 →
        s1.ruleset = s2.ruleset →
        Src.currentRow N s1 = some row → Src.currentRow N s2 = some (row.rotate sh) →
        ∃ t1 t2 new, Src.generate N s1 = some t1 ∧ Src.generate N s2 = some t2
          ∧ Src.currentRow N t1 = some new
          ∧ Src.currentRow N t2 = some (new.rotate sh)) := by
  have hrot := rotate_binary hbin sh
  refine ⟨?_, ?_, ?_⟩
  · intro rule s1 s2 hw1 hw2 hr1 hr2
    have hlen : row.length = N := by
      obtain ⟨p, _, hp⟩ := Option.bind_eq_some.mp hr1
      exact rowAt_length hp
    obtain ⟨t1, new1, ha1, hc1, _, hl1, hcells1, _⟩ :=
      Computer.advance_spec N rule s1 row hw1 hr1 hbin
    obtain ⟨t2, new2, ha2, hc2, _, hl2, hcells2, _⟩ :=
      Computer.advance_spec N rule s2 _ hw2 hr2 hrot
    have heq := rotate_of_cells _ hN hlen sh hl1 hl2 hcells1 hcells2
    exact ⟨t1, t2, new1, ha1, ha2, hc1, heq ▸ hc2⟩
  · intro s1 s2 hw1 hw2 hrs hr1 hr2
    have hlen : row.length = N := by
      obtain ⟨p, _, hp⟩ := Option.bind_eq_some.mp hr1
      exact rowAt_length hp
    obtain ⟨t1, new1, ha1, hc1, _, hl1, hcells1, _⟩ :=
      Arduino.generate_spec N s1 row hw1 hr1 hbin
    obtain ⟨t2, new2, ha2, hc2, _, hl2, hcells2, _⟩ :=
      Arduino.generate_spec N s2 _ hw2 hr2 hrot
    have heq := rotate_of_cells _ hN hlen sh hl1 hl2 hcells1 (fun k hk => by
      rw [hcells2 k hk, ← hrs])
    exact ⟨t1, t2, new1, ha1, ha2, hc1, heq ▸ hc2⟩
  · intro s1 s2 hw1 hw2 hrs hr1 hr2
    have hlen : row.length = N := by
      obtain ⟨p, _, hp⟩ := Option.bind_eq_some.mp hr1
      exact rowAt_length hp
    obtain ⟨t1, new1, ha1, hc1, _, hl1, hcells1, _⟩ :=
      Src.generate_spec_src N s1 row hw1 hr1 hbin
    obtain ⟨t2, new2, ha2, hc2, _, hl2, hcells2, _⟩ :=
      Src.generate_spec_src N s2 _ hw2 hr2 hrot
    have heq := rotate_of_cells _ hN hlen sh hl1 hl2 hcells1 (fun k hk => by
      rw [hcells2 k hk, ← hrs])
    exact ⟨t1, t2, new1, ha1, ha2, hc1, heq ▸ hc2⟩

/-- Witness of C14 at `N = 5`, row `[0,0,1,0,0]`, shift `2` and rule 30 in `Computer/main.c`:
the rotated row `[1,0,0,0,0]` advances to `[1,1,0,0,1]`, the rotation by `2` of
`[0,1,1,1,0]`. -/
theorem C14_witness :
    (1 ≤ 5 ∧ binaryRow [0, 0, 1, 0, 0]
      ∧ ([0, 0, 1, 0, 0] : List Int).rotate 2 = [1, 0, 0, 0, 0])
    ∧ (∃ t1 t2 new,
        Computer.advance 5 30 ⟨[[0, 0, 1, 0, 0, 0, 0, 0, 0, 0]], some ⟨0, 0⟩, some ⟨0, 5⟩, none, []⟩
          = some t1
        ∧ Computer.advance 5 30
            ⟨[[1, 0, 0, 0, 0, 0, 0, 0, 0, 0]], some ⟨0, 0⟩, some ⟨0, 5⟩, none, []⟩ = some t2
        ∧ Computer.currentRow 5 t1 = some new
        ∧ Computer.currentRow 5 t2 = some (new.rotate 2))
    ∧ (Computer.advance 5 30
          ⟨[[1, 0, 0, 0, 0, 0, 0, 0, 0, 0]], some ⟨0, 0⟩, some ⟨0, 5⟩, none, []⟩).bind
        (Computer.currentRow 5) = some [1, 1, 0, 0, 1]
    ∧ ([0, 1, 1, 1, 0] : List Int).rotate 2 = [1, 1, 0, 0, 1] :=
  ⟨by decide,
   (C14_step_commutes_with_rotation 5 (by decide) [0, 0, 1, 0, 0] (by decide) 2).1 30
      ⟨[[0, 0, 1, 0, 0, 0, 0, 0, 0, 0]], some ⟨0, 0⟩, some ⟨0, 5⟩, none, []⟩
      ⟨[[1, 0, 0, 0, 0, 0, 0, 0, 0, 0]], some ⟨0, 0⟩, some ⟨0, 5⟩, none, []⟩
      (by decide) (by decide) (by decide) (by decide),
   by decide, by decide⟩

theorem shiftRight_low_bits (n : Int) (k : Nat) (hk : k ≤ 7) :
    Int.shiftRight n k % 2 = Int.shiftRight (n % 256) k % 2 := by
  have e1 := Int.shiftRight_eq_div_pow n k
  have e2 := Int.shiftRight_eq_div_pow (n % 256) k
  rw [show Int.shiftRight n k = n >>> k from rfl, e1,
    show Int.shiftRight (n % 256) k = (n % 256) >>> k from rfl, e2]
  interval_cases k <;> norm_num <;> omega

/-- C15: only the low eight bits of the rule argument matter: for every integer `n` (also
`n > 255` and `n < 0`, `>>` being the arithmetic shift) and all bits `l`, `c`, `r`,
`stateBasedOnNeighbors(n, l, c, r) = stateBasedOnNeighbors(n mod 256, l, c, r)`; in particular
rule `256` behaves as rule `0` and rule `-1` as rule `255`. -/
theorem C15_only_low_eight_bits_of_rule_matter (n l c r : Int)
    (hl : isBit l) (hc : isBit c) (hr : isBit r) :
    stateBasedOnNeighbors n l c r = stateBasedOnNeighbors (n % 256) l c r
    ∧ stateBasedOnNeighbors 256 l c r = stateBasedOnNeighbors 0 l c r
    ∧ stateBasedOnNeighbors (-1) l c r = stateBasedOnNeighbors 255 l c r := by
  have hrange := bits_code_range hl hc hr
  have hk : (l * 4 + c * 2 + r).toNat ≤ 7 := by omega
  have key : ∀ a : Int, stateBasedOnNeighbors a l c r = stateBasedOnNeighbors (a % 256) l c r := by
    intro a
    rw [stateBasedOnNeighbors_bits a hl hc hr, stateBasedOnNeighbors_bits (a % 256) hl hc hr,
      shiftRight_low_bits a _ hk]
  exact ⟨key n, key 256, by rw [key (-1)]; rfl⟩

/-- Witness of C15 at rule number `286 = 256 + 30` and the neighbourhood `(1, 0, 0)`. -/
theorem C15_witness :
    (isBit 1 ∧ isBit 0)
    ∧ stateBasedOnNeighbors 286 1 0 0 = stateBasedOnNeighbors (286 % 256) 1 0 0
    ∧ stateBasedOnNeighbors 286 1 0 0 = some 1 :=
  ⟨by decide,
   (C15_only_low_eight_bits_of_rule_matter 286 1 0 0 (by decide) (by decide) (by decide)).1,
   by decide⟩

theorem rule_30_closed_form {l c r : Int} (hl : isBit l) (hc : isBit c) (hr : isBit r) :
    stateBasedOnNeighbors Computer.CURRENT_RULE l c r = some (bitXor l (bitOr c r)) := by
  rcases hl with rfl | rfl <;> rcases hc with rfl | rfl <;> rcases hr with rfl | rfl <;> decide

theorem getD_replicate_zero (N k : Nat) : (List.replicate N (0 : Int)).getD k 0 = 0 := by
  rw [List.getD_eq_getElem?_getD, List.getElem?_replicate]
  split <;> rfl

theorem cellAfter_dead (N k : Nat) :
    cellAfter (stateBasedOnNeighbors Computer.CURRENT_RULE) (List.replicate N 0) k = some 0 := by
  unfold cellAfter
  rw [getD_replicate_zero, getD_replicate_zero, getD_replicate_zero]
  decide

theorem cellAfter_dead_table (N k : Nat) :
    cellAfter (rulesetLookup Arduino.ruleset) (List.replicate N 0) k = some 0 := by
  unfold cellAfter
  rw [getD_replicate_zero, getD_replicate_zero, getD_replicate_zero]
  decide

theorem replicate_binary (N : Nat) : binaryRow (List.replicate N 0) :=
  fun _ hx => Or.inl (List.eq_of_mem_replicate hx)

theorem row_all_dead {N : Nat} {new : List Int} (hlen : new.length = N)
    (h : ∀ k, k < N → new[k]? = some 0) : new = List.replicate N 0 := by
  refine rows_eq_of_cells hlen (List.length_replicate N 0) h (fun k hk => ?_)
  rw [List.getElem?_replicate, if_pos hk]

/-- C16: for all bits `l`, `c`, `r`, both `stateBasedOnNeighbors(30, l, c, r)` and
`ruleset[(l << 2) | (c << 1) | r]` equal `l XOR (c OR r)`; consequently, for every row length
`N ≥ 1`, a state whose current row is all dead has an all-dead current row after one advance
(`Computer/main.c` with `CURRENT_RULE`, `generate()` of both Arduino variants with their
`ruleset`). -/
theorem C16_rule_30_is_left_xor_center_or_right (l c r : Int)
    (hl : isBit l) (hc : isBit c) (hr : isBit r) :
    stateBasedOnNeighbors Computer.CURRENT_RULE l c r = some (bitXor l (bitOr c r))
    ∧ rulesetLookup Arduino.ruleset l c r = some (bitXor l (bitOr c r))
    ∧ rulesetLookup Src.ruleset l c r = some (bitXor l (bitOr c r))
    ∧ (∀ N, 1 ≤ N →
      (∀ s : Computer.State, Computer.wellFormed N s →
        Computer.currentRow N s = some (List.replicate N 0) →
        ∃ s', Computer.advance N Computer.CURRENT_RULE s = some s'
          ∧ Computer.currentRow N s' = some (List.replicate N 0))
      ∧ (∀ s : Arduino.State, Arduino.wellFormed N s → s.ruleset = Arduino.ruleset →
        Arduino.currentRow N s = some (List.replicate N 0) →
        ∃ s', Arduino.generate N s = some s'
          ∧ Arduino.currentRow N s' = some (List.replicate N 0))
      ∧ (∀ s : Src.State, Src.wellFormed N s → s.ruleset = Src.ruleset →
        Src.currentRow N s = some (List.replicate N 0) →
        ∃ s', Src.generate N s = some s'
          ∧ Src.currentRow N s' = some (List.replicate N 0))) := by
  have htab : rulesetLookup Arduino.ruleset l c r = some (bitXor l (bitOr c r)) := by
    rw [table_eq_rule_30 hl hc hr]
    exact rule_30_closed_form hl hc hr
  refine ⟨rule_30_closed_form hl hc hr, htab, htab, ?_⟩
  intro N _
  refine ⟨?_, ?_, ?_⟩
  · intro s hwf hrow
    obtain ⟨s', new, hadv, hcur, _, hlen, hcells, _⟩ :=
      Computer.advance_spec N Computer.CURRENT_RULE s _ hwf hrow (replicate_binary N)
    have hnew : new = List.replicate N 0 :=
      row_all_dead hlen (fun k hk => by rw [hcells k hk, cellAfter_dead])
    exact ⟨s', hadv, hnew ▸ hcur⟩
  · intro s hwf hrs hrow
    obtain ⟨s', new, hgen, hcur, _, hlen, hcells, _⟩ :=
      Arduino.generate_spec N s _ hwf hrow (replicate_binary N)
    have hnew : new = List.replicate N 0 :=
      row_all_dead hlen (fun k hk => by rw [hcells k hk, hrs, cellAfter_dead_table])
    exact ⟨s', hgen, hnew ▸ hcur⟩
  · intro s hwf hrs hrow
    obtain ⟨s', new, hgen, hcur, _, hlen, hcells, _⟩ :=
      Src.generate_spec_src N s _ hwf hrow (replicate_binary N)
    have hnew : new = List.replicate N 0 :=
      row_all_dead hlen (fun k hk => by
        rw [hcells k hk, hrs]
        exact cellAfter_dead_table N k)
    exact ⟨s', hgen, hnew ▸ hcur⟩

/-- Witness of C16 at the neighbourhood `(1, 1, 0)`, where `1 XOR (1 OR 0) = 0`, and at the
all-dead row of three cells in `Computer/main.c`. -/
theorem C16_witness :
    (isBit 1 ∧ isBit 0)
    ∧ stateBasedOnNeighbors Computer.CURRENT_RULE 1 1 0 = some (bitXor 1 (bitOr 1 0))
    ∧ bitXor 1 (bitOr 1 0) = 0
    ∧ ∃ s', Computer.advance 3 Computer.CURRENT_RULE
          ⟨[[0, 0, 0, 0, 0, 0]], some ⟨0, 0⟩, some ⟨0, 3⟩, none, []⟩ = some s'
        ∧ Computer.currentRow 3 s' = some (List.replicate 3 0) :=
  ⟨by decide,
   (C16_rule_30_is_left_xor_center_or_right 1 1 0 (by decide) (by decide) (by decide)).1,
   by decide,
   (C16_rule_30_is_left_xor_center_or_right 1 1 0 (by decide) (by decide) (by decide)).2.2.2 3
      (by decide) |>.1 ⟨[[0, 0, 0, 0, 0, 0]], some ⟨0, 0⟩, some ⟨0, 3⟩, none, []⟩
      (by decide) (by decide)⟩

end CA1D
